import Mathlib

/-!
Verification of the email-driven YouTube link-intelligence pipeline.

This file embeds the core of the repository in Lean 4: the URL extractor and
canonicalizer, the email-processor worker, the YouTube enrichment client with
its circuit breaker and retry loop, the feature extractor and ranker, and the
offline evaluation harness.  Each definition is translated from the
corresponding TypeScript source.  JavaScript strings are modelled as Lean
strings over lists of characters; the WHATWG URL parser is modelled for the
fragment/host/path/query structure the code inspects, ignoring
percent-encoding, userinfo and ports, none of which affect the recognized
YouTube shapes.  Floating-point arithmetic is modelled over the reals, and
database numerics over the rationals.
-/

namespace YTIntel

/-! ### Character-list utilities used by the URL model -/

/-- Match a literal character sequence at the head of a list; on success
return the remainder. -/
def matchLit : List Char → List Char → Option (List Char)
  | [], rest => some rest
  | _ :: _, [] => none
  | c :: cs, x :: xs => if x = c then matchLit cs xs else none

/-- Split at the first occurrence of a character: the part before it, and
(if found) the part after it. -/
def breakAtChar (c : Char) : List Char → List Char × Option (List Char)
  | [] => ([], none)
  | x :: xs =>
    if x = c then ([], some xs)
    else
      let r := breakAtChar c xs
      (x :: r.1, r.2)

/-- Split a list on every occurrence of a separator character. -/
def splitOnChar (c : Char) : List Char → List (List Char)
  | [] => [[]]
  | x :: xs =>
    if x = c then [] :: splitOnChar c xs
    else
      match splitOnChar c xs with
      | [] => [[x]]
      | h :: t => (x :: h) :: t

/-! ### URL canonicalizer (src/services/url/extractor.ts) -/

/-- Character class of YouTube video ids, `[A-Za-z0-9_-]`. -/
def isVideoIdChar (c : Char) : Bool :=
  (('a' ≤ c && c ≤ 'z') || ('A' ≤ c && c ≤ 'Z') || ('0' ≤ c && c ≤ '9')
    || c = '_' || c = '-')

/-- Source `isValidVideoId`: the id matches the anchored pattern of exactly
eleven characters from the id alphabet. -/
def isValidVideoId (s : String) : Bool :=
  s.data.length = 11 && s.data.all isVideoIdChar

/-- The parts of a parsed URL that `canonicalizeUrl` inspects: lowercased
hostname, pathname, and raw query text (without the leading question mark). -/
structure UrlParts where
  host : List Char
  path : List Char
  query : List Char
deriving DecidableEq

/-- Strip an `http` or `https` scheme.  `canonicalizeUrl` prepends a scheme
when missing, so every string it parses carries one of these two. -/
def stripScheme (l : List Char) : Option (List Char) :=
  match matchLit (("https://").data) l with
  | some r => some r
  | none => matchLit (("http://").data) l

/-- Model of the URL parsing performed by the `new URL` constructor, for the
structure the canonicalizer reads: the fragment is cut first, the hostname is
the (lowercased) text before the first slash or question mark, the pathname
defaults to a single slash, and the query is the text after the first
question mark of the path section. -/
def parseUrlChars (l : List Char) : Option UrlParts :=
  let noFrag := (breakAtChar '#' l).1
  match stripScheme noFrag with
  | none => none
  | some rest =>
    let host := (rest.takeWhile (fun c => !(c = '/' || c = '?'))).map Char.toLower
    let tail := rest.dropWhile (fun c => !(c = '/' || c = '?'))
    if host.isEmpty then none
    else
      match tail with
      | [] => some ⟨host, ['/'], []⟩
      | t :: ts =>
        if t = '?' then some ⟨host, ['/'], ts⟩
        else
          let pq := breakAtChar '?' (t :: ts)
          some ⟨host, pq.1, pq.2.getD []⟩

/-- Query parameters in order, as produced by `URLSearchParams`: split on
ampersands, drop empty segments, break each segment at its first equals
sign. -/
def queryPairs (q : List Char) : List (List Char × List Char) :=
  ((splitOnChar '&' q).filter (fun s => !s.isEmpty)).map (fun seg =>
    let kv := breakAtChar '=' seg
    (kv.1, kv.2.getD []))

/-- Source `searchParams.get`: the value of the first parameter with the
given key, if any. -/
def getParam (q : List Char) (k : List Char) : Option (List Char) :=
  ((queryPairs q).find? (fun kv => kv.1 = k)).map (·.2)

/-- Link classification attached to a canonicalized URL. -/
inductive LinkType
  | video
  | playlist
  | channel
deriving DecidableEq

/-- Source `CanonicalizedUrl` record. -/
structure CanonicalizedUrl where
  canonicalUrl : String
  videoId : String
  playlistId : Option String
  type : LinkType
deriving DecidableEq

/-- Canonical watch URL as serialized by the source's `URLSearchParams` with
the `v` parameter and an optional `list` parameter. -/
def watchCanonicalUrl (videoId : String) (playlistId : Option String) : String :=
  match playlistId with
  | some p => "https://www.youtube.com/watch?v=" ++ videoId ++ "&list=" ++ p
  | none => "https://www.youtube.com/watch?v=" ++ videoId

/-- JavaScript whitespace for `String.prototype.trim` (the ASCII part; the
URLs under consideration contain no exotic whitespace). -/
def isJsWs (c : Char) : Bool :=
  c = ' ' || c = '\t' || c = '\n' || c = '\r' || c = '\x0b' || c = '\x0c'

/-- Model of `url.trim()` over character lists. -/
def jsTrim (l : List Char) : List Char :=
  ((l.dropWhile isJsWs).reverse.dropWhile isJsWs).reverse

/-- The optional playlist id of a watch URL: the `list` query value, with
the empty string collapsing to absence as by the source's logical-or with
undefined. -/
def listParamOpt (q : List Char) : Option String :=
  match getParam q (("list").data) with
  | some p => if p.isEmpty then none else some (String.mk p)
  | none => none

/-- The recognition chain of `canonicalizeUrl` over an already parsed URL:
the youtu.be, playlist-only, watch, embed, and `/v/` shapes in order. -/
def canonicalizeParts (u : UrlParts) : Option CanonicalizedUrl :=
  if u.host = ("youtu.be").data ∨ u.host = ("www.youtu.be").data then
      let vid := String.mk (u.path.drop 1)
      if isValidVideoId vid then
        some ⟨watchCanonicalUrl vid none, vid, none, LinkType.video⟩
      else none
    else if u.host = ("youtube.com").data ∨ u.host = ("www.youtube.com").data then
      if u.path = ("/playlist").data ∧ (getParam u.query (("list").data)).isSome then
        let pid := String.mk ((getParam u.query (("list").data)).getD [])
        some ⟨"https://www.youtube.com/playlist?list=" ++ pid, "", some pid,
          LinkType.playlist⟩
      else if u.path = ("/watch").data ∧ (getParam u.query (("v").data)).isSome ∧
          isValidVideoId (String.mk ((getParam u.query (("v").data)).getD [])) then
        let vid := String.mk ((getParam u.query (("v").data)).getD [])
        let pidOpt := listParamOpt u.query
        some ⟨watchCanonicalUrl vid pidOpt, vid, pidOpt,
          if pidOpt.isSome then LinkType.playlist else LinkType.video⟩
      else if (matchLit (("/embed/").data) u.path).isSome ∧
          isValidVideoId (String.mk (u.path.drop 7)) then
        some ⟨watchCanonicalUrl (String.mk (u.path.drop 7)) none,
          String.mk (u.path.drop 7), none, LinkType.video⟩
      else if (matchLit (("/v/").data) u.path).isSome ∧
          isValidVideoId (String.mk (u.path.drop 3)) then
        some ⟨watchCanonicalUrl (String.mk (u.path.drop 3)) none,
          String.mk (u.path.drop 3), none, LinkType.video⟩
      else none
    else none

/-- Scheme normalization: prepend `https` when the trimmed URL starts with
neither scheme. -/
def normalizeScheme (trimmed : List Char) : List Char :=
  if (matchLit (("http://").data) trimmed).isSome ∨
      (matchLit (("https://").data) trimmed).isSome then trimmed
  else ("https://").data ++ trimmed

/-- Source `canonicalizeUrl`: trim, normalize the scheme, parse, then apply
the recognition chain. -/
def canonicalizeUrl (url : String) : Option CanonicalizedUrl :=
  match parseUrlChars (normalizeScheme (jsTrim url.data)) with
  | none => none
  | some u => canonicalizeParts u

/-! ### URL extraction (src/services/url/extractor.ts, `YOUTUBE_PATTERNS`)

The six regular expressions are modelled as scanners.  Each scanner reports
the length of the match starting at the given position; `scanPattern` models
`matchAll`, restarting after the end of each match.  Lazy dot-stars are
modelled by trying the shortest extension first, and the dot excludes the
four JavaScript line terminators. -/

/-- Optionally match a literal, reporting the consumed length. -/
def matchOptLit (lit : List Char) (l : List Char) : List Char × Nat :=
  match matchLit lit l with
  | some rest => (rest, lit.length)
  | none => (l, 0)

/-- The shared pattern head: an optional http or https scheme followed by an
optional www. label. -/
def matchSchemeWww (l : List Char) : List Char × Nat :=
  let s1 := matchOptLit (("https://").data) l
  let s2 := if s1.2 = 0 then matchOptLit (("http://").data) l else s1
  let s3 := matchOptLit (("www.").data) s2.1
  (s3.1, s2.2 + s3.2)

/-- Take exactly `n` video-id characters, returning them and the rest. -/
def takeIdChars : List Char → Nat → Option (List Char × List Char)
  | rest, 0 => some ([], rest)
  | [], _ + 1 => none
  | c :: cs, n + 1 =>
    if isVideoIdChar c then (takeIdChars cs n).map (fun ar => (c :: ar.1, ar.2))
    else none

/-- Matcher for the four patterns of shape literal-then-eleven-id-chars. -/
def matchLitThenId (lit : List Char) (l : List Char) : Option Nat :=
  let s := matchSchemeWww l
  match matchLit lit s.1 with
  | none => none
  | some r => (takeIdChars r 11).map (fun _ => s.2 + lit.length + 11)

/-- Pattern `watch`. -/
def matchWatchAt (l : List Char) : Option Nat :=
  matchLitThenId (("youtube.com/watch?v=").data) l

/-- Pattern `short` for youtu.be links. -/
def matchShortAt (l : List Char) : Option Nat :=
  matchLitThenId (("youtu.be/").data) l

/-- Pattern `embed`. -/
def matchEmbedAt (l : List Char) : Option Nat :=
  matchLitThenId (("youtube.com/embed/").data) l

/-- Pattern `v`. -/
def matchVAt (l : List Char) : Option Nat :=
  matchLitThenId (("youtube.com/v/").data) l

/-- Pattern `playlist`: the playlist id is a greedy non-empty run of id
characters. -/
def matchPlaylistAt (l : List Char) : Option Nat :=
  let s := matchSchemeWww l
  match matchLit (("youtube.com/playlist?list=").data) s.1 with
  | none => none
  | some r =>
    let run := r.takeWhile isVideoIdChar
    if run.isEmpty then none
    else some (s.2 + (("youtube.com/playlist?list=").data).length + run.length)

/-- Characters the JavaScript regex dot can match. -/
def isRegexDot (c : Char) : Bool :=
  !(c = '\n' || c = '\r' || c = '\u2028' || c = '\u2029')

/-- Lazy scan: try the goal at the current position, else consume one
dot-matchable character and retry, accumulating the consumed length. -/
def lazyScan (goal : List Char → Option Nat) : List Char → Option Nat
  | [] => goal []
  | c :: cs =>
    match goal (c :: cs) with
    | some n => some n
    | none => if isRegexDot c then (lazyScan goal cs).map (· + 1) else none

/-- Pattern `watchWithPlaylist`: watch prefix, lazy gap, `v=` and eleven id
characters, lazy gap, `list=` and a greedy non-empty run. -/
def matchWatchListAt (l : List Char) : Option Nat :=
  let s := matchSchemeWww l
  match matchLit (("youtube.com/watch?").data) s.1 with
  | none => none
  | some r =>
    let goal2 : List Char → Option Nat := fun m =>
      match matchLit (("list=").data) m with
      | none => none
      | some r2 =>
        let run := r2.takeWhile isVideoIdChar
        if run.isEmpty then none else some (5 + run.length)
    let goal1 : List Char → Option Nat := fun m =>
      match matchLit (("v=").data) m with
      | none => none
      | some r1 =>
        match takeIdChars r1 11 with
        | none => none
        | some pr => (lazyScan goal2 pr.2).map (fun n2 => 2 + 11 + n2)
    match lazyScan goal1 r with
    | none => none
    | some n1 => some (s.2 + (("youtube.com/watch?").data).length + n1)

/-- Model of `text.matchAll(pattern)`: scan left to right, emit each match,
resume after its end.  The fuel bounds the number of scan positions and is
instantiated with the text length. -/
def scanPatternAux (m : List Char → Option Nat) : Nat → List Char → List (List Char)
  | 0, _ => []
  | _ + 1, [] => []
  | fuel + 1, c :: cs =>
    match m (c :: cs) with
    | some n =>
      ((c :: cs).take (max n 1)) :: scanPatternAux m fuel ((c :: cs).drop (max n 1))
    | none => scanPatternAux m fuel cs

/-- Scan a whole text for one pattern. -/
def scanPattern (m : List Char → Option Nat) (l : List Char) : List (List Char) :=
  scanPatternAux m l.length l

/-- Source `extractYouTubeUrls`: all pattern matches over the text, in
pattern order, deduplicated preserving first insertion. -/
def extractYouTubeUrls (text : String) : List String :=
  let l := text.data
  let all := scanPattern matchWatchAt l ++ scanPattern matchShortAt l ++
    scanPattern matchEmbedAt l ++ scanPattern matchVAt l ++
    scanPattern matchPlaylistAt l ++ scanPattern matchWatchListAt l
  (all.foldl (fun acc s => if s ∈ acc then acc else acc ++ [s]) []).map String.mk

/-- Retention decision of the canonicalization fold: keep a canonicalization
with a non-empty (truthy) video id whose id is not already collected. -/
def canonKeep (acc : List CanonicalizedUrl) (c : CanonicalizedUrl) :
    List CanonicalizedUrl :=
  if c.videoId ≠ "" ∧ acc.all (fun d => d.videoId ≠ c.videoId) then acc ++ [c]
  else acc

/-- One step of the canonicalization fold. -/
def canonStep (acc : List CanonicalizedUrl) (url : String) : List CanonicalizedUrl :=
  match canonicalizeUrl url with
  | some c => canonKeep acc c
  | none => acc

/-- Source `extractAndCanonicalize`: canonicalize every extracted URL, keep
those with a non-empty video id, and deduplicate by video id keeping the
first occurrence. -/
def extractAndCanonicalize (text : String) : List CanonicalizedUrl :=
  (extractYouTubeUrls text).foldl canonStep []

/-! ### Email processor worker (src/workers/email-processor.worker.ts)

The relational store is modelled as in-memory tables; `gen_random_uuid` as a
counter supplying fresh surrogate ids.  The Gmail fetch is external, so the
decoded message text is an input of the job model.  Timestamps are integer
epoch milliseconds. -/

/-- Metadata carried by an email-process job payload. -/
structure EmailMetadata where
  senderEmail : String
  senderName : Option String
  subject : Option String
  receivedAt : Int
  snippet : String
  labels : List String
deriving DecidableEq

/-- Source `EmailProcessJobData`. -/
structure EmailProcessJobData where
  userId : String
  messageId : String
  threadId : String
  metadata : EmailMetadata
deriving DecidableEq

/-- Row of the `emails` table (fields the worker writes). -/
structure EmailRow where
  id : Nat
  userId : String
  messageId : String
  threadId : String
  senderEmail : String
  senderName : Option String
  subject : Option String
  receivedAt : Int
  snippet : String
  labels : List String
  isThreadReply : Bool
  threadReplyCount : Nat
deriving DecidableEq

/-- Row of the `youtube_links` table. -/
structure LinkRow where
  id : Nat
  userId : String
  emailId : Nat
  canonicalUrl : String
  videoId : String
  playlistId : Option String
  isDuplicate : Bool
deriving DecidableEq

/-- Row of the `sender_stats` table. -/
structure SenderStatsRow where
  userId : String
  senderEmail : String
  emailCount : Nat
  lastEmailAt : Int
deriving DecidableEq

/-- Payload of a video-enrichment job. -/
structure EnrichJob where
  userId : String
  linkId : Nat
  videoId : String
deriving DecidableEq

/-- The relational state the worker touches, plus a fresh-id counter and the
set of users (for the token lookup). -/
structure DBState where
  nextId : Nat
  users : List String
  emails : List EmailRow
  links : List LinkRow
  senderStats : List SenderStatsRow
  videoMetadataIds : List String
deriving DecidableEq

/-- Whether an `emails` row exists for the `(user, message-id)` key. -/
def emailRowExists (s : DBState) (userId messageId : String) : Bool :=
  s.emails.any (fun e => e.userId = userId ∧ e.messageId = messageId)

/-- Upsert into `sender_stats`: insert with count one, or increment the
count and take the greatest last-email timestamp. -/
def upsertSenderStats (rows : List SenderStatsRow) (userId senderEmail : String)
    (receivedAt : Int) : List SenderStatsRow :=
  if rows.any (fun r => r.userId = userId ∧ r.senderEmail = senderEmail) then
    rows.map (fun r =>
      if r.userId = userId ∧ r.senderEmail = senderEmail then
        { r with emailCount := r.emailCount + 1,
                 lastEmailAt := max r.lastEmailAt receivedAt }
      else r)
  else rows ++ [⟨userId, senderEmail, 1, receivedAt⟩]

/-- The link-insertion loop: for each canonicalized URL, flag `is_duplicate`
when the user already has the video, insert with conflict-tolerance on
`(user, email, video-id)`, and collect the ids of rows actually inserted. -/
def insertLinks (userId : String) (emailId : Nat) :
    List CanonicalizedUrl → List LinkRow → Nat → List LinkRow × List Nat × Nat
  | [], links, nextId => (links, [], nextId)
  | url :: rest, links, nextId =>
    let isDup := links.any (fun l => l.userId = userId ∧ l.videoId = url.videoId)
    let conflict := links.any (fun l =>
      l.userId = userId ∧ l.emailId = emailId ∧ l.videoId = url.videoId)
    if conflict then insertLinks userId emailId rest links nextId
    else
      let row : LinkRow :=
        ⟨nextId, userId, emailId, url.canonicalUrl, url.videoId, url.playlistId, isDup⟩
      let r := insertLinks userId emailId rest (links ++ [row]) (nextId + 1)
      (r.1, nextId :: r.2.1, r.2.2)

/-- The body of `processEmailJob` past the idempotency and user checks:
extraction, the email/link/sender-stats transaction, and the enqueue loop.
The enqueue loop looks up, for every inserted link, the first canonicalized
URL with a truthy video id. -/
def processEmailBody (jd : EmailProcessJobData) (urls : List CanonicalizedUrl)
    (s : DBState) : DBState × List EnrichJob × Bool :=
    if urls.isEmpty then
      -- storeEmail: insert without the thread-reply columns, conflict-tolerant
      let row : EmailRow :=
        ⟨s.nextId, jd.userId, jd.messageId, jd.threadId, jd.metadata.senderEmail,
          jd.metadata.senderName, jd.metadata.subject, jd.metadata.receivedAt,
          jd.metadata.snippet, jd.metadata.labels, false, 0⟩
      ({ s with nextId := s.nextId + 1, emails := s.emails ++ [row] }, [], true)
    else
      let emailId := s.nextId
      let row : EmailRow :=
        ⟨emailId, jd.userId, jd.messageId, jd.threadId, jd.metadata.senderEmail,
          jd.metadata.senderName, jd.metadata.subject, jd.metadata.receivedAt,
          jd.metadata.snippet, jd.metadata.labels,
          !jd.metadata.labels.contains ("SENT"),
          jd.metadata.labels.length⟩
      let ins := insertLinks jd.userId emailId urls s.links (emailId + 1)
      let stats := upsertSenderStats s.senderStats jd.userId
        jd.metadata.senderEmail jd.metadata.receivedAt
      let jobs := ins.2.1.filterMap (fun linkId =>
        match urls.find? (fun u => u.videoId ≠ "") with
        | some u => some ⟨jd.userId, linkId, u.videoId⟩
        | none => none)
      let s2 : DBState :=
        { s with
          nextId := ins.2.2
          emails := s.emails ++ [row]
          links := ins.1
          senderStats := stats }
      (s2, jobs, true)

/-- Source `processEmailJob`.  Returns the new state, the enqueued
enrichment jobs, and whether the job succeeded.  The idempotency check
precedes everything else. -/
def processEmailJob (jd : EmailProcessJobData) (messageText : String)
    (s : DBState) : DBState × List EnrichJob × Bool :=
  if emailRowExists s jd.userId jd.messageId then (s, [], true)
  else if !s.users.contains jd.userId then (s, [], false)
  else processEmailBody jd (extractAndCanonicalize messageText) s

/-! ### Enrichment client (src/services/youtube/client.ts, `YouTubeClient`)

`getVideoMetadata` is modelled over an explicit client state (circuit breaker
plus the Redis cache) with the per-batch fetch abstracted as an oracle; the
retry loop inside `fetchVideoMetadataBatch` is modelled separately, at the
level of one batch, with the per-attempt HTTP outcome abstracted as an
oracle.  Wall-clock time is an explicit integer parameter in epoch
milliseconds. -/

/-- Cached video metadata (the fields are opaque to the control flow under
verification). -/
structure VideoMeta where
  videoId : String
  title : String
deriving DecidableEq

/-- Circuit breaker phase; `opened` models the source's `open` state. -/
inductive BreakerPhase
  | closed
  | opened
  | halfOpen
deriving DecidableEq

/-- Source `CircuitBreakerState`. -/
structure CircuitBreakerState where
  phase : BreakerPhase
  failures : Nat
  lastFailure : Option Int
deriving DecidableEq

/-- Client configuration (defaults: threshold 3, reset timeout 60000 ms,
batch size 50). -/
structure ClientConfig where
  failureThreshold : Nat
  resetTimeout : Int
  batchSize : Nat
deriving DecidableEq

/-- The defaults from src/config/index.ts. -/
def defaultClientConfig : ClientConfig := ⟨3, 60000, 50⟩

/-- In-process client state: breaker plus the metadata cache. -/
structure ClientState where
  breaker : CircuitBreakerState
  cache : List (String × VideoMeta)
deriving DecidableEq

/-- Errors surfaced by `getVideoMetadata`; upstream errors are re-thrown
unchanged. -/
inductive ClientError (ε : Type)
  | circuitOpen
  | upstream (e : ε)
deriving DecidableEq

/-- Cache lookup (`getCachedMetadata`). -/
def cacheLookup (cache : List (String × VideoMeta)) (videoId : String) :
    Option VideoMeta :=
  (cache.find? (fun kv => kv.1 = videoId)).map (·.2)

/-- Cache write-through (`cacheMetadata`): set the key, overwriting. -/
def cacheStore (cache : List (String × VideoMeta)) (videoId : String)
    (m : VideoMeta) : List (String × VideoMeta) :=
  if cache.any (fun kv => kv.1 = videoId) then
    cache.map (fun kv => if kv.1 = videoId then (videoId, m) else kv)
  else cache ++ [(videoId, m)]

/-- Source `handleCircuitBreakerFailure`: bump the failure counter, stamp
the failure time, and open the breaker at the threshold. -/
def handleCircuitBreakerFailure (cfg : ClientConfig) (now : Int)
    (b : CircuitBreakerState) : CircuitBreakerState :=
  { phase := if b.failures + 1 ≥ cfg.failureThreshold then BreakerPhase.opened
             else b.phase
    failures := b.failures + 1
    lastFailure := some now }

/-- Chunking of the uncached ids into batches of the configured size
(`for i += batchSize, slice(i, i + batchSize)`), with an explicit fuel. -/
def chunkListAux {α : Type} (n : Nat) : Nat → List α → List (List α)
  | 0, _ => []
  | _ + 1, [] => []
  | fuel + 1, l => l.take n :: chunkListAux n fuel (l.drop n)

/-- Batches of size at most `n` covering the list. -/
def chunkList {α : Type} (n : Nat) (l : List α) : List (List α) :=
  chunkListAux n l.length l

/-- The batch loop inside `getVideoMetadata`: fetch each batch, append its
results, write them through the cache, and reset the breaker; the first
failure records a breaker failure and rethrows.  Returns the outcome, the
state, and the number of batch fetches issued. -/
def processBatches {ε : Type} (cfg : ClientConfig) (now : Int)
    (fetch : List String → Except ε (List (String × VideoMeta))) :
    List (List String) → ClientState → List (String × VideoMeta) → Nat →
    Except (ClientError ε) (List (String × VideoMeta)) × ClientState × Nat
  | [], st, acc, calls => (Except.ok acc, st, calls)
  | batch :: rest, st, acc, calls =>
    match fetch batch with
    | Except.ok items =>
      let cache2 := items.foldl (fun c kv => cacheStore c kv.1 kv.2) st.cache
      let st2 : ClientState :=
        { breaker := ⟨BreakerPhase.closed, 0, none⟩, cache := cache2 }
      processBatches cfg now fetch rest st2 (acc ++ items) (calls + 1)
    | Except.error e =>
      let st2 : ClientState :=
        { st with breaker := handleCircuitBreakerFailure cfg now st.breaker }
      (Except.error (ClientError.upstream e), st2, calls + 1)

/-- The cache probe and batch loop of `getVideoMetadata`, reached once the
circuit check has admitted the call: cached ids are collected in order and
only the misses are fetched in batches. -/
def getVideoMetadataBody {ε : Type} (cfg : ClientConfig) (now : Int)
    (fetch : List String → Except ε (List (String × VideoMeta)))
    (videoIds : List String) (st1 : ClientState) :
    Except (ClientError ε) (List (String × VideoMeta)) × ClientState × Nat :=
  if (videoIds.filter (fun id => (cacheLookup st1.cache id).isNone)).isEmpty then
    (Except.ok (videoIds.filterMap (fun id => (cacheLookup st1.cache id).map ((id, ·)))),
     st1, 0)
  else
    processBatches cfg now fetch
      (chunkList cfg.batchSize
        (videoIds.filter (fun id => (cacheLookup st1.cache id).isNone)))
      st1
      (videoIds.filterMap (fun id => (cacheLookup st1.cache id).map ((id, ·)))) 0

/-- Source `getVideoMetadata`: empty input short-circuits; the circuit
check precedes the cache probe; an open breaker fails fast inside the reset
timeout and admits the call as a half-open probe after it. -/
def getVideoMetadata {ε : Type} (cfg : ClientConfig) (now : Int)
    (fetch : List String → Except ε (List (String × VideoMeta)))
    (videoIds : List String) (st : ClientState) :
    Except (ClientError ε) (List (String × VideoMeta)) × ClientState × Nat :=
  if videoIds.isEmpty then (Except.ok [], st, 0)
  else if st.breaker.phase = BreakerPhase.opened then
    if now - st.breaker.lastFailure.getD 0 < cfg.resetTimeout then
      (Except.error ClientError.circuitOpen, st, 0)
    else
      getVideoMetadataBody cfg now fetch videoIds
        { st with breaker := { st.breaker with phase := BreakerPhase.halfOpen } }
  else getVideoMetadataBody cfg now fetch videoIds st

/-! ### Batch retry loop (`fetchVideoMetadataBatch`)

The HTTP error shape the source inspects: a 429 marker (`error.code` or
`error.response.status`), the optional retry-after header, the response
status, and whether the message mentions the quota. -/

/-- Upstream error as inspected by the retry loop. -/
structure UpstreamErr where
  code : Option Nat
  responseStatus : Option Nat
  retryAfter : Option Nat
  msgHasQuota : Bool
deriving DecidableEq

/-- Rate-limit test: `error.code === 429 || error.response?.status === 429`. -/
def errIs429 (e : UpstreamErr) : Bool :=
  e.code = some 429 || e.responseStatus = some 429

/-- Quota test: `error.message?.includes('quota') || error.response?.status
=== 403`. -/
def errIsQuota (e : UpstreamErr) : Bool :=
  e.msgHasQuota || e.responseStatus = some 403

/-- Outcome of one attempt of the batch call. -/
inductive FetchOutcome
  | ok (items : List (String × VideoMeta))
  | fail (e : UpstreamErr)

/-- Error surfaced by the batch fetch after the loop. -/
inductive FetchError
  | quotaExceeded
  | lastError (e : UpstreamErr)
  | noAttempt
deriving DecidableEq

/-- The retry loop of `fetchVideoMetadataBatch`, one iteration per attempt:
success returns; 429 sleeps the retry-after (or `2^attempt`) seconds; a
quota error throws immediately; any other error sleeps `2^attempt * 1000`
milliseconds and retries.  Returns the outcome, the list of sleeps in
milliseconds, and the number of attempts made. -/
def fetchRetryLoop (outcomes : Nat → FetchOutcome) :
    Nat → Nat → Option UpstreamErr →
    Except FetchError (List (String × VideoMeta)) × List Nat × Nat
  | 0, attempt, lastErr =>
    (Except.error (match lastErr with
      | some e => FetchError.lastError e
      | none => FetchError.noAttempt), [], attempt)
  | remaining + 1, attempt, _ =>
    match outcomes attempt with
    | FetchOutcome.ok items => (Except.ok items, [], attempt + 1)
    | FetchOutcome.fail e =>
      if errIs429 e then
        let retryAfter := e.retryAfter.getD (2 ^ attempt)
        let r := fetchRetryLoop outcomes remaining (attempt + 1) (some e)
        (r.1, retryAfter * 1000 :: r.2.1, r.2.2)
      else if errIsQuota e then
        (Except.error FetchError.quotaExceeded, [], attempt + 1)
      else
        let r := fetchRetryLoop outcomes remaining (attempt + 1) (some e)
        (r.1, 2 ^ attempt * 1000 :: r.2.1, r.2.2)

/-- Source `fetchVideoMetadataBatch` with `maxRetries = 3`. -/
def fetchVideoMetadataBatch (outcomes : Nat → FetchOutcome) :
    Except FetchError (List (String × VideoMeta)) × List Nat × Nat :=
  fetchRetryLoop outcomes 3 0 none

/-! ### Feature extractor and ranker (src/services/features/extractor.ts,
src/services/ranking/ranker.ts)

Floating-point arithmetic is modelled over the reals.  The sender-stats
point read is an explicit optional row; the current wall time and the two
timestamps are real-valued epoch milliseconds. -/

/-- The sender-stats columns the feature extractor reads. -/
structure FeatSenderStats where
  emailCount : Nat
  lastEmailAt : Option ℝ
  isInContacts : Bool

/-- Configured freshness half-life in days (`ranking.freshnessHalfLifeDays`). -/
def freshnessHalfLifeDays : ℝ := 30

/-- Classification thresholds (`ranking.watchNowThreshold`,
`ranking.saveThreshold`). -/
def watchNowThreshold : ℝ := 0.7

/-- Save threshold. -/
def saveThreshold : ℝ := 0.4

/-- Source `computeSenderScore`: unknown senders default to 0.1; otherwise
a capped product of normalized log frequency, recency decay and contacts
boost. -/
noncomputable def computeSenderScore (stats : Option FeatSenderStats)
    (now : ℝ) : ℝ :=
  match stats with
  | none => 0.1
  | some st =>
    let logScore := Real.log (st.emailCount + 1) / Real.log 1001
    let normalizedLogScore := min logScore 1.0
    let daysSinceLastEmail :=
      match st.lastEmailAt with
      | some t => (now - t) / (1000 * 60 * 60 * 24)
      | none => 365
    let recencyDecay := Real.exp (-daysSinceLastEmail / 30)
    let contactsBoost : ℝ := if st.isInContacts then 1.5 else 1.0
    min (normalizedLogScore * recencyDecay * contactsBoost) 1.0

/-- Source `computeThreadScore`. -/
noncomputable def computeThreadScore (threadReplyCount : Nat) : ℝ :=
  min ((threadReplyCount : ℝ) / 3) 1.0

/-- Source `computeFreshnessScore`: exponential decay of the age of the
video at the time the email arrived. -/
noncomputable def computeFreshnessScore (videoPublishedAt emailReceivedAt : ℝ) : ℝ :=
  let daysSincePublish := (emailReceivedAt - videoPublishedAt) / (1000 * 60 * 60 * 24)
  Real.exp (-daysSincePublish / freshnessHalfLifeDays)

/-- Substring test over character lists (JavaScript `String.includes`). -/
def listContainsSub (needle hay : List Char) : Bool :=
  match hay with
  | [] => (matchLit needle []).isSome
  | _ :: t => (matchLit needle hay).isSome || listContainsSub needle t

/-- Source `computeTopicMatchScore`: fraction of learning goals contained
in the lowercased title-plus-description. -/
noncomputable def computeTopicMatchScore (videoTitle : String)
    (videoDescription : Option String) (learningGoals : List String) : ℝ :=
  if learningGoals.isEmpty then 0.5
  else
    let text := (videoTitle ++ " " ++ videoDescription.getD "").data.map Char.toLower
    let matchedGoals := learningGoals.filter (fun goal =>
      listContainsSub (goal.data.map Char.toLower) text)
    (matchedGoals.length : ℝ) / (learningGoals.length : ℝ)

/-- Source `computeNoisePenalty`. -/
noncomputable def computeNoisePenalty (stats : Option FeatSenderStats) : ℝ :=
  match stats with
  | none => 1.0
  | some st => 1.0 - min ((st.emailCount : ℝ) / 100) 0.5

/-- The five feature scores. -/
structure FeatureScores where
  senderScore : ℝ
  threadScore : ℝ
  freshnessScore : ℝ
  topicMatchScore : ℝ
  noisePenalty : ℝ

/-- Source `extractFeatures` over an explicit sender-stats read. -/
noncomputable def extractFeatures (stats : Option FeatSenderStats) (now : ℝ)
    (threadReplyCount : Nat) (videoPublishedAt emailReceivedAt : ℝ)
    (videoTitle : String) (videoDescription : Option String)
    (learningGoals : List String) : FeatureScores :=
  ⟨computeSenderScore stats now,
   computeThreadScore threadReplyCount,
   computeFreshnessScore videoPublishedAt emailReceivedAt,
   computeTopicMatchScore videoTitle videoDescription learningGoals,
   computeNoisePenalty stats⟩

/-- The ranker's weighted linear combination with the configured weights
0.3 / 0.2 / 0.2 / 0.2 / 0.1. -/
noncomputable def weightedScore (f : FeatureScores) : ℝ :=
  0.3 * f.senderScore + 0.2 * f.threadScore + 0.2 * f.freshnessScore +
    0.2 * f.topicMatchScore + 0.1 * f.noisePenalty

/-- The final score stored on the ranking result: the weighted sum clamped
to the unit interval (`Math.max(0, Math.min(1, finalScore))`). -/
noncomputable def finalScore (f : FeatureScores) : ℝ :=
  max 0 (min 1 (weightedScore f))

/-- Ranking classification. -/
inductive Classification
  | watchNow
  | save
  | skip
deriving DecidableEq

/-- Source `classify`, applied to the unclamped weighted score. -/
noncomputable def classify (score : ℝ) : Classification :=
  if score ≥ watchNowThreshold then Classification.watchNow
  else if score ≥ saveThreshold then Classification.save
  else Classification.skip

/-! ### Evaluation harness (src/evaluation/harness.ts)

Database numerics are modelled over the rationals.  The rankings query is
modelled as the list of joined rows followed by the SQL sort; the feedback
query as the list of feedback rows in returned order. -/

/-- A joined row of the rankings query. -/
structure RankingRow where
  linkId : String
  videoId : String
  finalScore : ℚ
  rankedAt : ℚ
  channelId : String
deriving DecidableEq

/-- A row of the feedback query. -/
structure FeedbackRow where
  linkId : String
  action : String
  label : Option String
deriving DecidableEq

/-- The ORDER BY of the rankings query: `ranked_at DESC, final_score DESC`. -/
def sqlOrderRankings (rows : List RankingRow) : List RankingRow :=
  rows.insertionSort (fun a b =>
    b.rankedAt < a.rankedAt ∨ (a.rankedAt = b.rankedAt ∧ b.finalScore ≤ a.finalScore))

/-- The relevance map built by `evaluate`: each feedback row overwrites the
entry for its link, so the last row returned for a link decides; relevant
means action `watched` or label `watch_now`. -/
def relevanceLookup (fbs : List FeedbackRow) (linkId : String) : Option Bool :=
  ((fbs.filter (fun fb => fb.linkId = linkId)).getLast?).map (fun fb =>
    fb.action = "watched" || fb.label = some ("watch_now"))

/-- Source `computePrecisionAtK` over the already-ordered rankings: count
the top-k entries whose relevance-map entry is `true`, divide by the number
of entries taken; zero when none. -/
def computePrecisionAtK (rankings : List RankingRow) (fbs : List FeedbackRow)
    (k : Nat) : ℚ :=
  if (rankings.take k).isEmpty then 0
  else
    (((rankings.take k).countP
        (fun r => relevanceLookup fbs r.linkId = some true) : ℚ)) /
      ((rankings.take k).length : ℚ)

/-- Precision-at-k as `evaluate` computes it: the SQL ordering followed by
`computePrecisionAtK`. -/
def evaluatePrecisionAtK (rows : List RankingRow) (fbs : List FeedbackRow)
    (k : Nat) : ℚ :=
  computePrecisionAtK (sqlOrderRankings rows) fbs k

/-- Modelled from the spec: precision-at-k as section 4.7 words it — order
by final score descending then ranked-at descending, count the top-k links
for which some feedback in range has action `watched` or label `watch_now`,
divide by the minimum of k and the number of rankings. -/
def specPrecisionAtK (rows : List RankingRow) (fbs : List FeedbackRow)
    (k : Nat) : ℚ :=
  let sorted := rows.insertionSort (fun a b =>
    b.finalScore < a.finalScore ∨ (a.finalScore = b.finalScore ∧ b.rankedAt ≤ a.rankedAt))
  let topK := sorted.take k
  let relevant := topK.countP (fun r => fbs.any (fun fb =>
    fb.linkId = r.linkId ∧ (fb.action = "watched" ∨ fb.label = some ("watch_now"))))
  (relevant : ℚ) / ((min k rows.length : Nat) : ℚ)

/-! ### Lemmas about the character-list utilities -/

theorem matchLit_append (pre rest : List Char) : matchLit pre (pre ++ rest) = some rest := by
  induction pre with
  | nil => rfl
  | cons c cs ih => simp [matchLit, ih]

theorem matchLit_eq_some {pre l r : List Char} (h : matchLit pre l = some r) :
    l = pre ++ r := by
  induction pre generalizing l with
  | nil => simp [matchLit] at h; simp [h]
  | cons c cs ih =>
    cases l with
    | nil => simp [matchLit] at h
    | cons x xs =>
      simp only [matchLit] at h
      by_cases hx : x = c
      · rw [if_pos hx] at h
        subst hx
        simp [ih h]
      · rw [if_neg hx] at h
        exact absurd h (by simp)

theorem breakAtChar_not_mem {c : Char} {l : List Char} (h : c ∉ l) :
    breakAtChar c l = (l, none) := by
  induction l with
  | nil => rfl
  | cons x xs ih =>
    simp only [breakAtChar]
    have hx : ¬x = c := fun he => h (he ▸ List.mem_cons_self x xs)
    rw [if_neg hx, ih (fun hm => h (List.mem_cons_of_mem x hm))]

theorem breakAtChar_append {c : Char} {xs : List Char} (h : c ∉ xs) (ys : List Char) :
    breakAtChar c (xs ++ c :: ys) = (xs, some ys) := by
  induction xs with
  | nil => simp [breakAtChar]
  | cons a as ih =>
    have ha : ¬a = c := fun he => h (he ▸ List.mem_cons_self a as)
    simp only [List.cons_append, breakAtChar, if_neg ha, List.append_eq,
      ih (fun hm => h (List.mem_cons_of_mem a hm))]

theorem breakAtChar_fst_not_mem (c : Char) (l : List Char) :
    c ∉ (breakAtChar c l).1 := by
  induction l with
  | nil => simp [breakAtChar]
  | cons x xs ih =>
    simp only [breakAtChar]
    by_cases hx : x = c
    · simp [hx]
    · simp only [if_neg hx, List.mem_cons, not_or]
      exact ⟨fun he => hx he.symm, ih⟩

theorem breakAtChar_fst_mem {c x : Char} {l : List Char}
    (h : x ∈ (breakAtChar c l).1) : x ∈ l := by
  induction l with
  | nil => simp [breakAtChar] at h
  | cons a as ih =>
    simp only [breakAtChar] at h
    by_cases ha : a = c
    · simp [ha] at h
    · simp only [if_neg ha, List.mem_cons] at h
      rcases h with h | h
      · exact h ▸ List.mem_cons_self a as
      · exact List.mem_cons_of_mem a (ih h)

theorem breakAtChar_snd_mem {c x : Char} {l r : List Char}
    (h : (breakAtChar c l).2 = some r) (hx : x ∈ r) : x ∈ l := by
  induction l with
  | nil => simp [breakAtChar] at h
  | cons a as ih =>
    simp only [breakAtChar] at h
    by_cases ha : a = c
    · simp only [if_pos ha, Option.some.injEq] at h
      exact List.mem_cons_of_mem a (by rw [h]; exact hx)
    · simp only [if_neg ha] at h
      exact List.mem_cons_of_mem a (ih h)

theorem splitOnChar_not_mem {c : Char} {l : List Char} (h : c ∉ l) :
    splitOnChar c l = [l] := by
  induction l with
  | nil => rfl
  | cons x xs ih =>
    have hx : ¬x = c := fun he => h (he ▸ List.mem_cons_self x xs)
    simp only [splitOnChar, if_neg hx, ih (fun hm => h (List.mem_cons_of_mem x hm))]

theorem splitOnChar_ne_nil {c : Char} (l : List Char) : splitOnChar c l ≠ [] := by
  cases l with
  | nil => simp [splitOnChar]
  | cons x xs =>
    simp only [splitOnChar]
    by_cases hx : x = c
    · simp [hx]
    · simp only [if_neg hx]
      cases splitOnChar c xs <;> simp

theorem splitOnChar_append {c : Char} {xs : List Char} (h : c ∉ xs) (ys : List Char) :
    splitOnChar c (xs ++ c :: ys) = xs :: splitOnChar c ys := by
  induction xs with
  | nil => simp [splitOnChar]
  | cons a as ih =>
    have ha : ¬a = c := fun he => h (he ▸ List.mem_cons_self a as)
    have ih2 := ih (fun hm => h (List.mem_cons_of_mem a hm))
    simp only [List.cons_append, splitOnChar, if_neg ha, List.append_eq, ih2]

theorem splitOnChar_no_sep {c : Char} {l s : List Char}
    (hs : s ∈ splitOnChar c l) : c ∉ s := by
  induction l generalizing s with
  | nil =>
    simp only [splitOnChar, List.mem_singleton] at hs
    simp [hs]
  | cons x xs ih =>
    simp only [splitOnChar] at hs
    by_cases hx : x = c
    · simp only [if_pos hx, List.mem_cons] at hs
      rcases hs with hs | hs
      · simp [hs]
      · exact ih hs
    · simp only [if_neg hx] at hs
      rcases he : splitOnChar c xs with _ | ⟨h0, t0⟩
      · exact absurd he (splitOnChar_ne_nil xs)
      · rw [he, List.mem_cons] at hs
        rcases hs with hs | hs
        · subst hs
          intro hm
          rcases List.mem_cons.mp hm with hm | hm
          · exact hx hm.symm
          · exact ih (he ▸ List.mem_cons_self h0 t0) hm
        · exact ih (he ▸ List.mem_cons_of_mem h0 hs)

theorem splitOnChar_sub {c : Char} {l s : List Char}
    (hs : s ∈ splitOnChar c l) {x : Char} (hx : x ∈ s) : x ∈ l := by
  induction l generalizing s with
  | nil =>
    simp only [splitOnChar, List.mem_singleton] at hs
    exact hs ▸ hx
  | cons a as ih =>
    simp only [splitOnChar] at hs
    by_cases ha : a = c
    · simp only [if_pos ha, List.mem_cons] at hs
      rcases hs with hs | hs
      · simp [hs] at hx
      · exact List.mem_cons_of_mem a (ih hs hx)
    · simp only [if_neg ha] at hs
      rcases he : splitOnChar c as with _ | ⟨h0, t0⟩
      · exact absurd he (splitOnChar_ne_nil as)
      · rw [he, List.mem_cons] at hs
        rcases hs with hs | hs
        · subst hs
          rcases List.mem_cons.mp hx with hx | hx
          · exact hx ▸ List.mem_cons_self a as
          · exact List.mem_cons_of_mem a (ih (he ▸ List.mem_cons_self h0 t0) hx)
        · exact List.mem_cons_of_mem a (ih (he ▸ List.mem_cons_of_mem h0 hs) hx)

theorem takeWhile_append_stop {p : Char → Bool} {xs : List Char}
    (hxs : ∀ x ∈ xs, p x = true) {y : Char} (hy : p y = false) (ys : List Char) :
    (xs ++ y :: ys).takeWhile p = xs := by
  induction xs with
  | nil => simp [List.takeWhile_cons, hy]
  | cons a as ih =>
    have ha := hxs a (List.mem_cons_self a as)
    simp only [List.cons_append, List.takeWhile_cons, ha, if_true]
    rw [ih (fun x hx => hxs x (List.mem_cons_of_mem a hx))]

theorem dropWhile_append_stop {p : Char → Bool} {xs : List Char}
    (hxs : ∀ x ∈ xs, p x = true) {y : Char} (hy : p y = false) (ys : List Char) :
    (xs ++ y :: ys).dropWhile p = y :: ys := by
  induction xs with
  | nil => simp [List.dropWhile_cons, hy]
  | cons a as ih =>
    have ha := hxs a (List.mem_cons_self a as)
    simp only [List.cons_append, List.dropWhile_cons, ha, if_true]
    exact ih (fun x hx => hxs x (List.mem_cons_of_mem a hx))

theorem mem_dropWhile_imp {p : Char → Bool} {l : List Char} {x : Char}
    (h : x ∈ l.dropWhile p) : x ∈ l := (List.dropWhile_sublist p).mem h

theorem dropWhile_eq_self_of {p : Char → Bool} {l : List Char}
    (h : ∀ x ∈ l, p x = false) : l.dropWhile p = l := by
  cases l with
  | nil => rfl
  | cons a as => simp [List.dropWhile_cons, h a (List.mem_cons_self a as)]

theorem jsTrim_eq_self {l : List Char} (h : ∀ x ∈ l, isJsWs x = false) :
    jsTrim l = l := by
  unfold jsTrim
  rw [dropWhile_eq_self_of h, dropWhile_eq_self_of (fun x hx => h x (List.mem_reverse.mp hx)),
    List.reverse_reverse]

theorem jsTrim_sub {l : List Char} {x : Char} (h : x ∈ jsTrim l) : x ∈ l := by
  unfold jsTrim at h
  exact mem_dropWhile_imp (List.mem_reverse.mp (mem_dropWhile_imp (List.mem_reverse.mp h)))

/-! ### Lemmas about the URL parser and canonicalizer -/

theorem videoIdChar_props {x : Char} (h : isVideoIdChar x = true) :
    x ≠ '&' ∧ x ≠ '#' ∧ x ≠ '/' ∧ x ≠ '?' ∧ x ≠ '=' ∧ isJsWs x = false := by
  refine ⟨?_, ?_, ?_, ?_, ?_, ?_⟩
  · rintro rfl; revert h; decide
  · rintro rfl; revert h; decide
  · rintro rfl; revert h; decide
  · rintro rfl; revert h; decide
  · rintro rfl; revert h; decide
  · cases hw : isJsWs x with
    | false => rfl
    | true =>
      exfalso
      simp only [isJsWs, Bool.or_eq_true, decide_eq_true_eq] at hw
      rcases hw with ((((rfl | rfl) | rfl) | rfl) | rfl) | rfl <;> revert h <;> decide

theorem validVideoId_chars {s : String} (h : isValidVideoId s = true) :
    ∀ x ∈ s.data, isVideoIdChar x = true := by
  simp only [isValidVideoId, Bool.and_eq_true, List.all_eq_true, decide_eq_true_eq] at h
  exact h.2

theorem stripScheme_sub {l r : List Char} (h : stripScheme l = some r) {x : Char}
    (hx : x ∈ r) : x ∈ l := by
  unfold stripScheme at h
  rcases hm : matchLit (("https://").data) l with _ | r2
  · rw [hm] at h
    rw [matchLit_eq_some h]
    exact List.mem_append_right _ hx
  · rw [hm] at h
    obtain rfl : r2 = r := by simpa using h
    rw [matchLit_eq_some hm]
    exact List.mem_append_right _ hx

theorem parseUrlChars_query_sub {l : List Char} {u : UrlParts}
    (h : parseUrlChars l = some u) : ∀ x ∈ u.query, x ∈ l ∧ x ≠ '#' := by
  intro x hx
  have base : ∀ {y : Char}, y ∈ (breakAtChar '#' l).1 → y ∈ l ∧ y ≠ '#' := fun {y} hm =>
    ⟨breakAtChar_fst_mem hm, fun he => breakAtChar_fst_not_mem '#' l (he ▸ hm)⟩
  simp only [parseUrlChars] at h
  split at h
  · cases h
  next rest hss =>
    split at h
    · cases h
    · split at h
      next htail =>
        obtain rfl := Option.some.inj h
        simp at hx
      next t ts htail =>
        have tailsub : ∀ {y : Char}, y ∈ t :: ts → y ∈ l ∧ y ≠ '#' := by
          intro y hy
          rw [← htail] at hy
          exact base (stripScheme_sub hss (mem_dropWhile_imp hy))
        split at h
        · obtain rfl := Option.some.inj h
          exact tailsub (List.mem_cons_of_mem t hx)
        · obtain rfl := Option.some.inj h
          simp only at hx
          rcases hb : (breakAtChar '?' (t :: ts)).2 with _ | r
          · rw [hb] at hx
            simp at hx
          · rw [hb] at hx
            exact tailsub (breakAtChar_snd_mem hb hx)

theorem getParam_val_sub {q k v : List Char} (h : getParam q k = some v) :
    ∀ x ∈ v, x ∈ q ∧ x ≠ '&' := by
  unfold getParam at h
  rcases hf : (queryPairs q).find? (fun kv => kv.1 = k) with _ | kv
  · rw [hf] at h; cases h
  · rw [hf] at h
    obtain rfl : kv.2 = v := by simpa using h
    have hmem := List.mem_of_find?_eq_some hf
    unfold queryPairs at hmem
    rw [List.mem_map] at hmem
    obtain ⟨seg, hseg, hkv⟩ := hmem
    rw [List.mem_filter] at hseg
    intro x hx
    have hseg2 : x ∈ seg := by
      rcases hb : (breakAtChar '=' seg).2 with _ | r
      · rw [← hkv] at hx
        simp only [hb, Option.getD_none] at hx
        cases hx
      · rw [← hkv] at hx
        simp only [hb, Option.getD_some] at hx
        exact breakAtChar_snd_mem hb hx
    exact ⟨splitOnChar_sub hseg.1 hseg2,
      fun he => splitOnChar_no_sep hseg.1 (he ▸ hseg2)⟩

/-- A present playlist parameter comes from a non-empty `list` query value. -/
theorem listParamOpt_inv {q : List Char} {p : String}
    (hp : listParamOpt q = some p) :
    p.data ≠ [] ∧ getParam q (("list").data) = some p.data := by
  unfold listParamOpt at hp
  split at hp
  next q0 hl =>
    by_cases hq0 : q0.isEmpty
    · rw [if_pos hq0] at hp; cases hp
    · rw [if_neg hq0] at hp
      obtain rfl := Option.some.inj hp
      exact ⟨by simpa [List.isEmpty_iff] using hq0, hl⟩
  next hl => cases hp

/-- Inversion of the recognition chain: every result with a non-empty video
id has a valid video id, a canonical watch URL rebuilt from its own fields,
the video/playlist classification decided by the presence of the playlist
id, and a playlist id that is a non-empty ampersand-free query value. -/
theorem canonicalizeParts_shape {u : UrlParts} {c : CanonicalizedUrl}
    (h : canonicalizeParts u = some c) (hv : c.videoId ≠ "") :
    isValidVideoId c.videoId = true ∧
    c.canonicalUrl = watchCanonicalUrl c.videoId c.playlistId ∧
    c.type = (if c.playlistId.isSome then LinkType.playlist else LinkType.video) ∧
    ∀ p, c.playlistId = some p →
      p.data ≠ [] ∧ getParam u.query (("list").data) = some p.data := by
  simp only [canonicalizeParts] at h
  split at h
  · -- youtu.be branch
    split at h
    next hval =>
      obtain rfl := Option.some.inj h
      exact ⟨hval, rfl, rfl, by intro p hp; cases hp⟩
    · cases h
  · split at h
    · -- youtube.com branch chain
      split at h
      · -- playlist-only: videoId is empty, contradiction
        obtain rfl := Option.some.inj h
        simp at hv
      · split at h
        next hcond =>
          -- watch branch
          obtain rfl := Option.some.inj h
          obtain ⟨hpath, hv2, hval⟩ := hcond
          refine ⟨hval, rfl, rfl, ?_⟩
          intro p hp
          exact listParamOpt_inv hp
        · split at h
          next hcond =>
            obtain rfl := Option.some.inj h
            exact ⟨hcond.2, rfl, rfl, by intro p hp; cases hp⟩
          · split at h
            next hcond =>
              obtain rfl := Option.some.inj h
              exact ⟨hcond.2, rfl, rfl, by intro p hp; cases hp⟩
            · cases h
    · cases h

theorem stringMk_data (s : String) : String.mk s.data = s := rfl

theorem normalizeScheme_sub {l : List Char} {x : Char}
    (h : x ∈ normalizeScheme l) : x ∈ l ∨ x ∈ (("https://").data) := by
  unfold normalizeScheme at h
  split at h
  · exact Or.inl h
  · rcases List.mem_append.mp h with h | h
    · exact Or.inr h
    · exact Or.inl h

/-- Inversion at the URL level: a canonicalization with a non-empty video
id, of an input without whitespace, has a valid id, a canonical URL rebuilt
from its own fields, the classification decided by the playlist id, and a
playlist id that is non-empty and free of separators and whitespace. -/
theorem canonicalizeUrl_shape {url : String} {c : CanonicalizedUrl}
    (h : canonicalizeUrl url = some c) (hv : c.videoId ≠ "") :
    isValidVideoId c.videoId = true ∧
    c.canonicalUrl = watchCanonicalUrl c.videoId c.playlistId ∧
    c.type = (if c.playlistId.isSome then LinkType.playlist else LinkType.video) ∧
    ∀ p, c.playlistId = some p → p.data ≠ [] ∧ '&' ∉ p.data ∧ '#' ∉ p.data ∧
      ((∀ x ∈ url.data, isJsWs x = false) → ∀ x ∈ p.data, isJsWs x = false) := by
  unfold canonicalizeUrl at h
  rcases hu : parseUrlChars (normalizeScheme (jsTrim url.data)) with _ | u
  · rw [hu] at h; cases h
  · rw [hu] at h
    obtain ⟨hvalid, hcan, htype, hpl⟩ := canonicalizeParts_shape h hv
    refine ⟨hvalid, hcan, htype, ?_⟩
    intro p hp
    obtain ⟨hne, hlist⟩ := hpl p hp
    have hchar := getParam_val_sub hlist
    refine ⟨hne, ?_, ?_, ?_⟩
    · intro hmem
      exact (hchar '&' hmem).2 rfl
    · intro hmem
      exact (parseUrlChars_query_sub hu '#' (hchar '#' hmem).1).2 rfl
    · intro hws x hx
      have hq := (parseUrlChars_query_sub hu x (hchar x hx).1).1
      rcases normalizeScheme_sub hq with hq | hq
      · exact hws x (jsTrim_sub hq)
      · revert hq
        have : ∀ y ∈ (("https://").data), isJsWs y = false := by decide
        exact fun hq => this x hq

/-- Computation of the URL parser on a scheme-host-path-query split with
separator-free components. -/
theorem parseUrlChars_full {host path q : List Char} (hne : host ≠ [])
    (hhost : ∀ x ∈ host, ¬x = '/' ∧ ¬x = '?' ∧ ¬x = '#')
    (hlower : host.map Char.toLower = host)
    (hpath : ∀ x ∈ path, ¬x = '?' ∧ ¬x = '#') (hq : '#' ∉ q) :
    parseUrlChars ((("https://").data ++ host ++ ('/' :: path)) ++ ('?' :: q)) =
      some ⟨host, '/' :: path, q⟩ := by
  have hnofrag : '#' ∉ (("https://").data ++ host ++ ('/' :: path)) ++ ('?' :: q) := by
    intro hmem
    rcases List.mem_append.mp hmem with hmem | hmem
    · rcases List.mem_append.mp hmem with hmem | hmem
      · rcases List.mem_append.mp hmem with hmem | hmem
        · revert hmem; decide
        · exact (hhost '#' hmem).2.2 rfl
      · rcases List.mem_cons.mp hmem with hmem | hmem
        · exact absurd hmem.symm (by decide)
        · exact (hpath '#' hmem).2 rfl
    · rcases List.mem_cons.mp hmem with hmem | hmem
      · exact absurd hmem.symm (by decide)
      · exact hq hmem
  have hpred : ∀ x ∈ host, (fun c : Char => !(c = '/' || c = '?')) x = true := by
    intro x hx
    have := hhost x hx
    simp [this.1, this.2.1]
  have hslash : (fun c : Char => !(c = '/' || c = '?')) '/' = false := by decide
  have hqmark : ¬('?' ∈ ('/' :: path)) := by
    intro hmem
    rcases List.mem_cons.mp hmem with hmem | hmem
    · exact absurd hmem (by decide)
    · exact (hpath '?' hmem).1 rfl
  simp only [parseUrlChars]
  rw [breakAtChar_not_mem hnofrag]
  have hassoc : (("https://").data ++ host ++ ('/' :: path)) ++ ('?' :: q) =
      ("https://").data ++ (host ++ ('/' :: (path ++ '?' :: q))) := by
    simp [List.append_assoc]
  rw [hassoc]
  unfold stripScheme
  rw [matchLit_append]
  simp only
  rw [takeWhile_append_stop hpred hslash, dropWhile_append_stop hpred hslash, hlower]
  rw [if_neg (by simpa [List.isEmpty_iff] using hne)]
  simp only
  rw [if_neg (by decide : ¬('/' : Char) = '?')]
  have hsplit : ('/' : Char) :: (path ++ '?' :: q) = ('/' :: path) ++ '?' :: q := by
    simp
  rw [hsplit, breakAtChar_append hqmark]
  rfl

theorem queryPairs_v_only {vid : List Char} (hvid : '&' ∉ vid) :
    queryPairs ('v' :: '=' :: vid) = [(['v'], vid)] := by
  have hns : '&' ∉ 'v' :: '=' :: vid := by
    intro h
    rcases List.mem_cons.mp h with h | h
    · exact absurd h (by decide)
    · rcases List.mem_cons.mp h with h | h
      · exact absurd h (by decide)
      · exact hvid h
  unfold queryPairs
  rw [splitOnChar_not_mem hns]
  simp [breakAtChar]

theorem queryPairs_v_list {vid pd : List Char} (hvid : '&' ∉ vid) (hpd : '&' ∉ pd) :
    queryPairs ('v' :: '=' :: (vid ++ '&' :: ('l' :: 'i' :: 's' :: 't' :: '=' :: pd))) =
      [(['v'], vid), (['l', 'i', 's', 't'], pd)] := by
  have hseg1 : '&' ∉ 'v' :: '=' :: vid := by
    intro h
    rcases List.mem_cons.mp h with h | h
    · exact absurd h (by decide)
    · rcases List.mem_cons.mp h with h | h
      · exact absurd h (by decide)
      · exact hvid h
  have hseg2 : '&' ∉ 'l' :: 'i' :: 's' :: 't' :: '=' :: pd := by
    intro h
    rcases List.mem_cons.mp h with h | h
    · exact absurd h (by decide)
    rcases List.mem_cons.mp h with h | h
    · exact absurd h (by decide)
    rcases List.mem_cons.mp h with h | h
    · exact absurd h (by decide)
    rcases List.mem_cons.mp h with h | h
    · exact absurd h (by decide)
    rcases List.mem_cons.mp h with h | h
    · exact absurd h (by decide)
    exact hpd h
  have hshape : 'v' :: '=' :: (vid ++ '&' :: ('l' :: 'i' :: 's' :: 't' :: '=' :: pd)) =
      ('v' :: '=' :: vid) ++ '&' :: ('l' :: 'i' :: 's' :: 't' :: '=' :: pd) := by
    simp
  unfold queryPairs
  rw [hshape, splitOnChar_append hseg1, splitOnChar_not_mem hseg2]
  simp [breakAtChar]

theorem getParam_v_only {vid : List Char} (hvid : '&' ∉ vid) :
    getParam ('v' :: '=' :: vid) (("v").data) = some vid := by
  unfold getParam
  rw [queryPairs_v_only hvid]
  simp [List.find?]

theorem getParam_list_none {vid : List Char} (hvid : '&' ∉ vid) :
    getParam ('v' :: '=' :: vid) (("list").data) = none := by
  unfold getParam
  rw [queryPairs_v_only hvid]
  simp [List.find?]

theorem getParam_v_pair {vid pd : List Char} (hvid : '&' ∉ vid) (hpd : '&' ∉ pd) :
    getParam ('v' :: '=' :: (vid ++ '&' :: ('l' :: 'i' :: 's' :: 't' :: '=' :: pd)))
      (("v").data) = some vid := by
  unfold getParam
  rw [queryPairs_v_list hvid hpd]
  simp [List.find?]

theorem getParam_list_pair {vid pd : List Char} (hvid : '&' ∉ vid) (hpd : '&' ∉ pd) :
    getParam ('v' :: '=' :: (vid ++ '&' :: ('l' :: 'i' :: 's' :: 't' :: '=' :: pd)))
      (("list").data) = some pd := by
  unfold getParam
  rw [queryPairs_v_list hvid hpd]
  simp [List.find?]

theorem listParamOpt_v_only {vid : List Char} (hvid : '&' ∉ vid) :
    listParamOpt ('v' :: '=' :: vid) = none := by
  unfold listParamOpt
  rw [getParam_list_none hvid]

theorem listParamOpt_v_pair {vid pd : List Char} (hvid : '&' ∉ vid) (hpd : '&' ∉ pd)
    (hne : pd ≠ []) :
    listParamOpt ('v' :: '=' :: (vid ++ '&' :: ('l' :: 'i' :: 's' :: 't' :: '=' :: pd))) =
      some (String.mk pd) := by
  unfold listParamOpt
  rw [getParam_list_pair hvid hpd]
  simp only [List.isEmpty_iff]
  rw [if_neg hne]

/-- The query characters of a canonical watch URL. -/
def watchQueryChars (vid : String) : Option String → List Char
  | none => 'v' :: '=' :: vid.data
  | some p => 'v' :: '=' :: (vid.data ++ '&' :: ('l' :: 'i' :: 's' :: 't' :: '=' :: p.data))

/-- Parsing a canonical watch URL recovers the youtube host, the watch path,
and exactly the built query. -/
theorem parseUrlChars_watchCanonical (vid : String) (popt : Option String)
    (hvalid : isValidVideoId vid = true)
    (hp : ∀ p, popt = some p → '#' ∉ p.data) :
    parseUrlChars ((watchCanonicalUrl vid popt).data) =
      some ⟨("www.youtube.com").data, '/' :: ("watch").data, watchQueryChars vid popt⟩ := by
  have hvchars := validVideoId_chars hvalid
  have hvid_hash : '#' ∉ vid.data := fun h => (videoIdChar_props (hvchars _ h)).2.1 rfl
  cases popt with
  | none =>
    have hdata : (watchCanonicalUrl vid none).data =
        (("https://").data ++ ("www.youtube.com").data ++ ('/' :: ("watch").data)) ++
          ('?' :: ('v' :: '=' :: vid.data)) := by
      show ("https://www.youtube.com/watch?v=" ++ vid).data = _
      rw [String.data_append]
      have hconc : ("https://www.youtube.com/watch?v=").data =
          (("https://").data ++ ("www.youtube.com").data ++ ('/' :: ("watch").data)) ++
            ['?', 'v', '='] := by decide
      rw [hconc]
      simp
    have hq_hash : '#' ∉ 'v' :: '=' :: vid.data := by
      intro hmem
      rcases List.mem_cons.mp hmem with hmem | hmem
      · exact absurd hmem (by decide)
      rcases List.mem_cons.mp hmem with hmem | hmem
      · exact absurd hmem (by decide)
      · exact hvid_hash hmem
    rw [hdata]
    exact parseUrlChars_full (by decide) (by decide) (by decide) (by decide) hq_hash
  | some p =>
    have hp_hash := hp p rfl
    have hdata : (watchCanonicalUrl vid (some p)).data =
        (("https://").data ++ ("www.youtube.com").data ++ ('/' :: ("watch").data)) ++
          ('?' :: ('v' :: '=' :: (vid.data ++
            '&' :: ('l' :: 'i' :: 's' :: 't' :: '=' :: p.data)))) := by
      show ("https://www.youtube.com/watch?v=" ++ vid ++ "&list=" ++ p).data = _
      rw [String.data_append, String.data_append, String.data_append]
      have hconc : ("https://www.youtube.com/watch?v=").data =
          (("https://").data ++ ("www.youtube.com").data ++ ('/' :: ("watch").data)) ++
            ['?', 'v', '='] := by decide
      have hconc2 : ("&list=").data = ['&', 'l', 'i', 's', 't', '='] := by decide
      rw [hconc, hconc2]
      simp
    have hq_hash : '#' ∉ 'v' :: '=' :: (vid.data ++
        '&' :: ('l' :: 'i' :: 's' :: 't' :: '=' :: p.data)) := by
      intro hmem
      rcases List.mem_cons.mp hmem with hmem | hmem
      · exact absurd hmem (by decide)
      rcases List.mem_cons.mp hmem with hmem | hmem
      · exact absurd hmem (by decide)
      rcases List.mem_append.mp hmem with hmem | hmem
      · exact hvid_hash hmem
      · rcases List.mem_cons.mp hmem with hmem | hmem
        · exact absurd hmem (by decide)
        rcases List.mem_cons.mp hmem with hmem | hmem
        · exact absurd hmem (by decide)
        rcases List.mem_cons.mp hmem with hmem | hmem
        · exact absurd hmem (by decide)
        rcases List.mem_cons.mp hmem with hmem | hmem
        · exact absurd hmem (by decide)
        rcases List.mem_cons.mp hmem with hmem | hmem
        · exact absurd hmem (by decide)
        rcases List.mem_cons.mp hmem with hmem | hmem
        · exact absurd hmem (by decide)
        · exact hp_hash hmem
    rw [hdata]
    exact parseUrlChars_full (by decide) (by decide) (by decide) (by decide) hq_hash

/-- Canonicalizing a canonical watch URL built from a valid video id and a
well-formed optional playlist id reproduces exactly the canonical record. -/
theorem canonicalizeUrl_watchUrl (vid : String) (popt : Option String)
    (hvalid : isValidVideoId vid = true)
    (hp : ∀ p, popt = some p → p.data ≠ [] ∧ '&' ∉ p.data ∧ '#' ∉ p.data ∧
      ∀ x ∈ p.data, isJsWs x = false) :
    canonicalizeUrl (watchCanonicalUrl vid popt) =
      some ⟨watchCanonicalUrl vid popt, vid, popt,
        if popt.isSome then LinkType.playlist else LinkType.video⟩ := by
  have hvchars := validVideoId_chars hvalid
  have hvid_amp : '&' ∉ vid.data := fun h => (videoIdChar_props (hvchars _ h)).1 rfl
  have hvid_hash : '#' ∉ vid.data := fun h => (videoIdChar_props (hvchars _ h)).2.1 rfl
  have hvid_ws : ∀ x ∈ vid.data, isJsWs x = false :=
    fun x h => (videoIdChar_props (hvchars x h)).2.2.2.2.2
  cases popt with
  | none =>
    have hdata : (watchCanonicalUrl vid none).data =
        (("https://").data ++ ("www.youtube.com").data ++ ('/' :: ("watch").data)) ++
          ('?' :: ('v' :: '=' :: vid.data)) := by
      show ("https://www.youtube.com/watch?v=" ++ vid).data = _
      rw [String.data_append]
      have hconc : ("https://www.youtube.com/watch?v=").data =
          (("https://").data ++ ("www.youtube.com").data ++ ('/' :: ("watch").data)) ++
            ['?', 'v', '='] := by decide
      rw [hconc]
      simp
    have hws : ∀ x ∈ (watchCanonicalUrl vid none).data, isJsWs x = false := by
      rw [hdata]
      intro x hx
      rcases List.mem_append.mp hx with hx | hx
      · revert hx
        have hcc : ∀ y ∈ (("https://").data ++ ("www.youtube.com").data ++
            ('/' :: ("watch").data)), isJsWs y = false := by decide
        exact fun hx => hcc x hx
      · rcases List.mem_cons.mp hx with hx | hx
        · subst hx; decide
        rcases List.mem_cons.mp hx with hx | hx
        · subst hx; decide
        rcases List.mem_cons.mp hx with hx | hx
        · subst hx; decide
        · exact hvid_ws x hx
    have hq_hash : '#' ∉ 'v' :: '=' :: vid.data := by
      intro hmem
      rcases List.mem_cons.mp hmem with hmem | hmem
      · exact absurd hmem (by decide)
      rcases List.mem_cons.mp hmem with hmem | hmem
      · exact absurd hmem (by decide)
      · exact hvid_hash hmem
    have hscheme : normalizeScheme ((watchCanonicalUrl vid none).data) =
        (watchCanonicalUrl vid none).data := by
      have hcond : (matchLit (("https://").data) ((watchCanonicalUrl vid none).data)).isSome := by
        rw [hdata]
        have hre : (("https://").data ++ ("www.youtube.com").data ++
            ('/' :: ("watch").data)) ++ ('?' :: ('v' :: '=' :: vid.data)) =
            ("https://").data ++ (("www.youtube.com").data ++ ('/' :: ("watch").data) ++
              ('?' :: ('v' :: '=' :: vid.data))) := by simp
        rw [hre, matchLit_append]
        rfl
      unfold normalizeScheme
      rw [if_pos (Or.inr hcond)]
    have hparse : parseUrlChars ((watchCanonicalUrl vid none).data) =
        some ⟨("www.youtube.com").data, '/' :: ("watch").data, 'v' :: '=' :: vid.data⟩ := by
      rw [hdata]
      exact parseUrlChars_full (by decide) (by decide) (by decide) (by decide) hq_hash
    have c1 : ¬(("www.youtube.com").data = ("youtu.be").data ∨
        ("www.youtube.com").data = ("www.youtu.be").data) := by decide
    have c2 : ("www.youtube.com").data = ("youtube.com").data ∨
        ("www.youtube.com").data = ("www.youtube.com").data := by decide
    have c3 : ¬('/' :: ("watch").data = ("/playlist").data ∧
        (getParam ('v' :: '=' :: vid.data) (("list").data)).isSome) :=
      fun hc => absurd hc.1 (by decide)
    have c4 : '/' :: ("watch").data = ("/watch").data ∧
        (getParam ('v' :: '=' :: vid.data) (("v").data)).isSome ∧
        isValidVideoId (String.mk
          ((getParam ('v' :: '=' :: vid.data) (("v").data)).getD [])) := by
      refine ⟨by decide, ?_, ?_⟩
      · rw [getParam_v_only hvid_amp]; rfl
      · rw [getParam_v_only hvid_amp]
        exact hvalid
    show (match parseUrlChars (normalizeScheme (jsTrim ((watchCanonicalUrl vid none).data))) with
      | none => none
      | some u => canonicalizeParts u) = _
    rw [jsTrim_eq_self hws, hscheme, hparse]
    show canonicalizeParts _ = _
    unfold canonicalizeParts
    rw [if_neg c1, if_pos c2, if_neg c3, if_pos c4,
      getParam_v_only hvid_amp, listParamOpt_v_only hvid_amp]
    rfl
  | some p =>
    obtain ⟨hpne, hp_amp, hp_hash, hp_ws⟩ := hp p rfl
    have hdata : (watchCanonicalUrl vid (some p)).data =
        (("https://").data ++ ("www.youtube.com").data ++ ('/' :: ("watch").data)) ++
          ('?' :: ('v' :: '=' :: (vid.data ++
            '&' :: ('l' :: 'i' :: 's' :: 't' :: '=' :: p.data)))) := by
      show ("https://www.youtube.com/watch?v=" ++ vid ++ "&list=" ++ p).data = _
      rw [String.data_append, String.data_append, String.data_append]
      have hconc : ("https://www.youtube.com/watch?v=").data =
          (("https://").data ++ ("www.youtube.com").data ++ ('/' :: ("watch").data)) ++
            ['?', 'v', '='] := by decide
      have hconc2 : ("&list=").data = ['&', 'l', 'i', 's', 't', '='] := by decide
      rw [hconc, hconc2]
      simp
    have hws : ∀ x ∈ (watchCanonicalUrl vid (some p)).data, isJsWs x = false := by
      rw [hdata]
      intro x hx
      rcases List.mem_append.mp hx with hx | hx
      · revert hx
        have hcc : ∀ y ∈ (("https://").data ++ ("www.youtube.com").data ++
            ('/' :: ("watch").data)), isJsWs y = false := by decide
        exact fun hx => hcc x hx
      · rcases List.mem_cons.mp hx with hx | hx
        · subst hx; decide
        rcases List.mem_cons.mp hx with hx | hx
        · subst hx; decide
        rcases List.mem_cons.mp hx with hx | hx
        · subst hx; decide
        rcases List.mem_append.mp hx with hx | hx
        · exact hvid_ws x hx
        · rcases List.mem_cons.mp hx with hx | hx
          · subst hx; decide
          rcases List.mem_cons.mp hx with hx | hx
          · subst hx; decide
          rcases List.mem_cons.mp hx with hx | hx
          · subst hx; decide
          rcases List.mem_cons.mp hx with hx | hx
          · subst hx; decide
          rcases List.mem_cons.mp hx with hx | hx
          · subst hx; decide
          rcases List.mem_cons.mp hx with hx | hx
          · subst hx; decide
          · exact hp_ws x hx
    have hq_hash : '#' ∉ 'v' :: '=' :: (vid.data ++
        '&' :: ('l' :: 'i' :: 's' :: 't' :: '=' :: p.data)) := by
      intro hmem
      rcases List.mem_cons.mp hmem with hmem | hmem
      · exact absurd hmem (by decide)
      rcases List.mem_cons.mp hmem with hmem | hmem
      · exact absurd hmem (by decide)
      rcases List.mem_append.mp hmem with hmem | hmem
      · exact hvid_hash hmem
      · rcases List.mem_cons.mp hmem with hmem | hmem
        · exact absurd hmem (by decide)
        rcases List.mem_cons.mp hmem with hmem | hmem
        · exact absurd hmem (by decide)
        rcases List.mem_cons.mp hmem with hmem | hmem
        · exact absurd hmem (by decide)
        rcases List.mem_cons.mp hmem with hmem | hmem
        · exact absurd hmem (by decide)
        rcases List.mem_cons.mp hmem with hmem | hmem
        · exact absurd hmem (by decide)
        rcases List.mem_cons.mp hmem with hmem | hmem
        · exact absurd hmem (by decide)
        · exact hp_hash hmem
    have hscheme : normalizeScheme ((watchCanonicalUrl vid (some p)).data) =
        (watchCanonicalUrl vid (some p)).data := by
      have hcond : (matchLit (("https://").data)
          ((watchCanonicalUrl vid (some p)).data)).isSome := by
        rw [hdata]
        have hre : (("https://").data ++ ("www.youtube.com").data ++
            ('/' :: ("watch").data)) ++ ('?' :: ('v' :: '=' :: (vid.data ++
              '&' :: ('l' :: 'i' :: 's' :: 't' :: '=' :: p.data)))) =
            ("https://").data ++ (("www.youtube.com").data ++ ('/' :: ("watch").data) ++
              ('?' :: ('v' :: '=' :: (vid.data ++
                '&' :: ('l' :: 'i' :: 's' :: 't' :: '=' :: p.data))))) := by simp
        rw [hre, matchLit_append]
        rfl
      unfold normalizeScheme
      rw [if_pos (Or.inr hcond)]
    have hparse : parseUrlChars ((watchCanonicalUrl vid (some p)).data) =
        some ⟨("www.youtube.com").data, '/' :: ("watch").data,
          'v' :: '=' :: (vid.data ++ '&' :: ('l' :: 'i' :: 's' :: 't' :: '=' :: p.data))⟩ := by
      rw [hdata]
      exact parseUrlChars_full (by decide) (by decide) (by decide) (by decide) hq_hash
    have c1 : ¬(("www.youtube.com").data = ("youtu.be").data ∨
        ("www.youtube.com").data = ("www.youtu.be").data) := by decide
    have c2 : ("www.youtube.com").data = ("youtube.com").data ∨
        ("www.youtube.com").data = ("www.youtube.com").data := by decide
    have c3 : ¬('/' :: ("watch").data = ("/playlist").data ∧
        (getParam ('v' :: '=' :: (vid.data ++
          '&' :: ('l' :: 'i' :: 's' :: 't' :: '=' :: p.data))) (("list").data)).isSome) :=
      fun hc => absurd hc.1 (by decide)
    have c4 : '/' :: ("watch").data = ("/watch").data ∧
        (getParam ('v' :: '=' :: (vid.data ++
          '&' :: ('l' :: 'i' :: 's' :: 't' :: '=' :: p.data))) (("v").data)).isSome ∧
        isValidVideoId (String.mk
          ((getParam ('v' :: '=' :: (vid.data ++
            '&' :: ('l' :: 'i' :: 's' :: 't' :: '=' :: p.data))) (("v").data)).getD [])) := by
      refine ⟨by decide, ?_, ?_⟩
      · rw [getParam_v_pair hvid_amp hp_amp]; rfl
      · rw [getParam_v_pair hvid_amp hp_amp]
        exact hvalid
    show (match parseUrlChars (normalizeScheme
        (jsTrim ((watchCanonicalUrl vid (some p)).data))) with
      | none => none
      | some u => canonicalizeParts u) = _
    rw [jsTrim_eq_self hws, hscheme, hparse]
    show canonicalizeParts _ = _
    unfold canonicalizeParts
    rw [if_neg c1, if_pos c2, if_neg c3, if_pos c4,
      getParam_v_pair hvid_amp hp_amp, listParamOpt_v_pair hvid_amp hp_amp hpne]
    rfl

theorem canonKeep_mem {acc : List CanonicalizedUrl} {c d : CanonicalizedUrl}
    (hd : d ∈ canonKeep acc c) : d ∈ acc ∨ (d = c ∧ c.videoId ≠ "") := by
  unfold canonKeep at hd
  split at hd
  next hcond =>
    rcases List.mem_append.mp hd with hd | hd
    · exact Or.inl hd
    · exact Or.inr ⟨List.mem_singleton.mp hd, hcond.1⟩
  next =>
    exact Or.inl hd

theorem canonStep_mem {acc : List CanonicalizedUrl} {url : String}
    {d : CanonicalizedUrl} (hd : d ∈ canonStep acc url) :
    d ∈ acc ∨ (d.videoId ≠ "" ∧ canonicalizeUrl url = some d) := by
  unfold canonStep at hd
  rcases hu : canonicalizeUrl url with _ | c0
  · rw [hu] at hd
    exact Or.inl hd
  · rw [hu] at hd
    have hd2 : d ∈ canonKeep acc c0 := hd
    rcases canonKeep_mem hd2 with hmem | ⟨rfl, hne⟩
    · exact Or.inl hmem
    · exact Or.inr ⟨hne, rfl⟩

theorem extractAndCanonicalize_invariant (urls : List String)
    (acc : List CanonicalizedUrl)
    (hacc : ∀ c ∈ acc, c.videoId ≠ "" ∧ ∃ url, canonicalizeUrl url = some c) :
    ∀ c ∈ urls.foldl canonStep acc,
      c.videoId ≠ "" ∧ ∃ url, canonicalizeUrl url = some c := by
  induction urls generalizing acc with
  | nil => exact hacc
  | cons u rest ih =>
    intro c hc
    refine ih _ ?_ c hc
    intro d hd
    rcases canonStep_mem hd with hd | hd
    · exact hacc d hd
    · exact ⟨hd.1, u, hd.2⟩

/-- C7: canonicalization is idempotent.  For every whitespace-free input URL
that `canonicalizeUrl` recognizes with a video id matching the eleven
character pattern, canonicalizing the produced canonical URL yields the same
canonical record, so canonicalize after canonicalize equals canonicalize. -/
theorem canonicalizeUrl_idempotent (u : String) (c : CanonicalizedUrl)
    (h : canonicalizeUrl u = some c) (hvalid : isValidVideoId c.videoId = true)
    (hws : ∀ x ∈ u.data, isJsWs x = false) :
    canonicalizeUrl c.canonicalUrl = some c := by
  have hv : c.videoId ≠ "" := by
    intro he
    rw [he] at hvalid
    exact absurd hvalid (by decide)
  obtain ⟨_, hcan, htype, hpl⟩ := canonicalizeUrl_shape h hv
  have hfwd := canonicalizeUrl_watchUrl c.videoId c.playlistId hvalid
    (fun p hp => by
      obtain ⟨h1, h2, h3, h4⟩ := hpl p hp
      exact ⟨h1, h2, h3, h4 hws⟩)
  rw [hcan, hfwd]
  cases c
  simp only at hcan htype ⊢
  rw [← hcan, ← htype]

/-- Witness for C7 at the concrete watch URL with a playlist id and a
tracking parameter. -/
theorem canonicalizeUrl_idempotent_witness :
    canonicalizeUrl ("https://www.youtube.com/watch?v=dQw4w9WgXcQ&list=PL123&utm_source=x") =
      some ⟨"https://www.youtube.com/watch?v=dQw4w9WgXcQ&list=PL123", "dQw4w9WgXcQ",
        some ("PL123"), LinkType.playlist⟩ ∧
    canonicalizeUrl ("https://www.youtube.com/watch?v=dQw4w9WgXcQ&list=PL123") =
      some ⟨"https://www.youtube.com/watch?v=dQw4w9WgXcQ&list=PL123", "dQw4w9WgXcQ",
        some ("PL123"), LinkType.playlist⟩ :=
  ⟨by decide,
   canonicalizeUrl_idempotent
     ("https://www.youtube.com/watch?v=dQw4w9WgXcQ&list=PL123&utm_source=x")
     ⟨"https://www.youtube.com/watch?v=dQw4w9WgXcQ&list=PL123", "dQw4w9WgXcQ",
       some ("PL123"), LinkType.playlist⟩
     (by decide) (by decide) (by decide)⟩

/-- C8: tracking parameters are removed.  Every canonicalization with a
video id yields a canonical URL whose query holds exactly the parameter `v`
with that id, plus `list` exactly when a playlist id is present; and the S1
scenario canonicalizes to the bare watch URL with video type. -/
theorem trackingParams_removed :
    (∀ (u : String) (c : CanonicalizedUrl), canonicalizeUrl u = some c →
      c.videoId ≠ "" →
      (parseUrlChars ((c.canonicalUrl).data)).map (fun pr => queryPairs pr.query) =
        some (((("v").data), c.videoId.data) ::
          (match c.playlistId with
           | some p => [((("list").data), p.data)]
           | none => []))) ∧
    canonicalizeUrl ("https://www.youtube.com/watch?v=dQw4w9WgXcQ&utm_source=x&feature=youtu.be") =
      some ⟨"https://www.youtube.com/watch?v=dQw4w9WgXcQ", "dQw4w9WgXcQ", none,
        LinkType.video⟩ := by
  constructor
  · intro u c h hv
    obtain ⟨hvalid, hcan, _, hpl⟩ := canonicalizeUrl_shape h hv
    have hvchars := validVideoId_chars hvalid
    have hvid_amp : '&' ∉ c.videoId.data :=
      fun hm => (videoIdChar_props (hvchars _ hm)).1 rfl
    rw [hcan, parseUrlChars_watchCanonical c.videoId c.playlistId hvalid
      (fun p hp => (hpl p hp).2.2.1)]
    rcases hpid : c.playlistId with _ | p
    · show some (queryPairs ('v' :: '=' :: c.videoId.data)) =
        some [((("v").data), c.videoId.data)]
      rw [queryPairs_v_only hvid_amp]
    · obtain ⟨hpne, hp_amp, _, _⟩ := hpl p hpid
      show some (queryPairs ('v' :: '=' :: (c.videoId.data ++
          '&' :: ('l' :: 'i' :: 's' :: 't' :: '=' :: p.data)))) =
        some [((("v").data), c.videoId.data), ((("list").data), p.data)]
      rw [queryPairs_v_list hvid_amp hp_amp]
  · decide

/-- Witness for C8 at the S1 input. -/
theorem trackingParams_removed_witness :
    (parseUrlChars (("https://www.youtube.com/watch?v=dQw4w9WgXcQ").data)).map
      (fun pr => queryPairs pr.query) =
      some [((("v").data), ("dQw4w9WgXcQ").data)] :=
  trackingParams_removed.1
    ("https://www.youtube.com/watch?v=dQw4w9WgXcQ&utm_source=x&feature=youtu.be")
    ⟨"https://www.youtube.com/watch?v=dQw4w9WgXcQ", "dQw4w9WgXcQ", none, LinkType.video⟩
    (by decide) (by decide)

/-- C10: every element returned by `extractAndCanonicalize` carries a
non-empty video id matching the eleven-character pattern; playlist-only
canonicalizations carry the empty video id and are dropped by the filter,
even though `canonicalizeUrl` recognizes the playlist-only shape. -/
theorem extractAndCanonicalize_valid_ids :
    (∀ (text : String) (c : CanonicalizedUrl), c ∈ extractAndCanonicalize text →
      c.videoId ≠ "" ∧ isValidVideoId c.videoId = true) ∧
    canonicalizeUrl ("https://www.youtube.com/playlist?list=PLxxx") =
      some ⟨"https://www.youtube.com/playlist?list=PLxxx", "", some ("PLxxx"),
        LinkType.playlist⟩ := by
  constructor
  · intro text c hc
    have hinv := extractAndCanonicalize_invariant (extractYouTubeUrls text) []
      (by intro d hd; cases hd) c hc
    obtain ⟨hne, url, hurl⟩ := hinv
    exact ⟨hne, (canonicalizeUrl_shape hurl hne).1⟩
  · decide

/-- Witness for C10 at a concrete short link. -/
theorem extractAndCanonicalize_valid_ids_witness :
    ("dQw4w9WgXcQ" : String) ≠ "" ∧ isValidVideoId ("dQw4w9WgXcQ") = true :=
  extractAndCanonicalize_valid_ids.1 ("see https://youtu.be/dQw4w9WgXcQ now")
    ⟨"https://www.youtube.com/watch?v=dQw4w9WgXcQ", "dQw4w9WgXcQ", none, LinkType.video⟩
    (by decide)

/-! ### Email processor theorems -/

/-- C1: evaluation of the enqueue loop at a failing input.  A message with
two distinct video links, over a store whose VideoMetadata already holds the
first id, inserts two links with ids 1 and 2 for videos A and B, yet both
enqueued jobs carry video id A (the `find` in the loop returns the first
truthy URL irrespective of the link), and the job for A is enqueued even
though A is present in VideoMetadata: the claim fails on both counts. -/
theorem processEmailJob_enqueue_eval :
    (processEmailJob
      ⟨"u1", "m1", "t1", ⟨"alice@example.com", none, none, 1000, "", []⟩⟩
      ("https://youtu.be/AAAAAAAAAAA and https://youtu.be/BBBBBBBBBBB")
      ⟨0, ["u1"], [], [], [], ["AAAAAAAAAAA"]⟩).2.1 =
      [⟨"u1", 1, "AAAAAAAAAAA"⟩, ⟨"u1", 2, "AAAAAAAAAAA"⟩] ∧
    (processEmailJob
      ⟨"u1", "m1", "t1", ⟨"alice@example.com", none, none, 1000, "", []⟩⟩
      ("https://youtu.be/AAAAAAAAAAA and https://youtu.be/BBBBBBBBBBB")
      ⟨0, ["u1"], [], [], [], ["AAAAAAAAAAA"]⟩).1.links.map
        (fun l => (l.id, l.videoId)) =
      [(1, ("AAAAAAAAAAA" : String)), (2, ("BBBBBBBBBBB" : String))] ∧
    ("AAAAAAAAAAA" : String) ∈
      (⟨0, ["u1"], [], [], [], ["AAAAAAAAAAA"]⟩ : DBState).videoMetadataIds := by
  refine ⟨?_, ?_, ?_⟩
  · decide
  · decide
  · decide

theorem processEmailBody_spec (jd : EmailProcessJobData)
    (urls : List CanonicalizedUrl) (s : DBState) :
    (∃ row : EmailRow, (processEmailBody jd urls s).1.emails = s.emails ++ [row] ∧
      row.userId = jd.userId ∧ row.messageId = jd.messageId) ∧
    (processEmailBody jd urls s).2.2 = true := by
  unfold processEmailBody
  by_cases hurl : urls.isEmpty
  · rw [if_pos hurl]
    exact ⟨⟨_, rfl, rfl, rfl⟩, rfl⟩
  · rw [if_neg hurl]
    exact ⟨⟨_, rfl, rfl, rfl⟩, rfl⟩

/-- C6: email idempotency.  A run over a state that already contains the
Email row for the job's `(user, message-id)` is a no-op success, and a
second run on the state produced by any first run changes nothing and
enqueues nothing, so the end state after two runs equals the end state
after one run: same Email rows, same Link rows, and the SenderStats
`email_count` incremented only by the first run. -/
theorem processEmailJob_idempotent (jd : EmailProcessJobData) (text : String)
    (s : DBState) :
    (emailRowExists s jd.userId jd.messageId = true →
      processEmailJob jd text s = (s, [], true)) ∧
    processEmailJob jd text (processEmailJob jd text s).1 =
      ((processEmailJob jd text s).1, [], (processEmailJob jd text s).2.2) := by
  have hnoop : ∀ s2, emailRowExists s2 jd.userId jd.messageId = true →
      processEmailJob jd text s2 = (s2, [], true) := by
    intro s2 h
    unfold processEmailJob
    rw [if_pos h]
  refine ⟨hnoop s, ?_⟩
  by_cases he : emailRowExists s jd.userId jd.messageId = true
  · rw [hnoop s he]
    simpa using hnoop s he
  · by_cases hu : (!s.users.contains jd.userId) = true
    · have hfirst : processEmailJob jd text s = (s, [], false) := by
        unfold processEmailJob
        rw [if_neg he, if_pos hu]
      rw [hfirst]
      simp only
      unfold processEmailJob
      rw [if_neg he, if_pos hu]
    · have hfirst : processEmailJob jd text s =
          processEmailBody jd (extractAndCanonicalize text) s := by
        unfold processEmailJob
        rw [if_neg he, if_neg hu]
      rw [hfirst]
      obtain ⟨⟨row, hrow, hru, hrm⟩, hflag⟩ :=
        processEmailBody_spec jd (extractAndCanonicalize text) s
      have hex : emailRowExists
          (processEmailBody jd (extractAndCanonicalize text) s).1
          jd.userId jd.messageId = true := by
        unfold emailRowExists
        rw [hrow]
        simp [List.any_append, hru, hrm]
      rw [hnoop _ hex, hflag]

/-- Witness for C6 at a concrete job and state. -/
theorem processEmailJob_idempotent_witness :
    processEmailJob
      ⟨"u1", "m1", "t1", ⟨"a@b.c", none, none, 5, "", []⟩⟩ ("no links here")
      ⟨7, ["u1"], [⟨3, "u1", "m1", "t1", "a@b.c", none, none, 5, "", [], false, 0⟩],
        [], [], []⟩ =
      (⟨7, ["u1"], [⟨3, "u1", "m1", "t1", "a@b.c", none, none, 5, "", [], false, 0⟩],
        [], [], []⟩, [], true) :=
  (processEmailJob_idempotent
    ⟨"u1", "m1", "t1", ⟨"a@b.c", none, none, 5, "", []⟩⟩ ("no links here")
    ⟨7, ["u1"], [⟨3, "u1", "m1", "t1", "a@b.c", none, none, 5, "", [], false, 0⟩],
      [], [], []⟩).1 (by decide)

/-! ### Feature extractor and ranker theorems -/

/-- C2 counterexample: with a video published 30 days after the email was
received (a legal pair of timestamps), the freshness score is `exp 1`, which
exceeds 1, so not every feature score lies in the unit interval. -/
theorem computeFreshnessScore_exceeds_one :
    1 < computeFreshnessScore 2592000000 0 := by
  show 1 < Real.exp (-(((0 : ℝ) - 2592000000) / (1000 * 60 * 60 * 24)) /
    freshnessHalfLifeDays)
  rw [show (-(((0 : ℝ) - 2592000000) / (1000 * 60 * 60 * 24)) /
      freshnessHalfLifeDays) = 1 by norm_num [freshnessHalfLifeDays]]
  exact Real.one_lt_exp_iff.mpr one_pos

/-- C2 amended: the sender, thread, topic-match and noise-penalty scores
always lie in the unit interval; the freshness score is always nonnegative
and lies in the unit interval whenever the video was published no later
than the email was received; and the ranker's clamped final score always
lies in the unit interval. -/
theorem featureScores_bounds (stats : Option FeatSenderStats) (now : ℝ)
    (threadReplyCount : Nat) (videoPublishedAt emailReceivedAt : ℝ)
    (videoTitle : String) (videoDescription : Option String)
    (learningGoals : List String) :
    (0 ≤ computeSenderScore stats now ∧ computeSenderScore stats now ≤ 1) ∧
    (0 ≤ computeThreadScore threadReplyCount ∧
      computeThreadScore threadReplyCount ≤ 1) ∧
    (0 ≤ computeTopicMatchScore videoTitle videoDescription learningGoals ∧
      computeTopicMatchScore videoTitle videoDescription learningGoals ≤ 1) ∧
    (0 ≤ computeNoisePenalty stats ∧ computeNoisePenalty stats ≤ 1) ∧
    (0 ≤ computeFreshnessScore videoPublishedAt emailReceivedAt) ∧
    (videoPublishedAt ≤ emailReceivedAt →
      computeFreshnessScore videoPublishedAt emailReceivedAt ≤ 1) ∧
    (∀ f : FeatureScores, 0 ≤ finalScore f ∧ finalScore f ≤ 1) := by
  refine ⟨?_, ?_, ?_, ?_, ?_, ?_, ?_⟩
  · cases stats with
    | none => norm_num [computeSenderScore]
    | some st =>
      unfold computeSenderScore
      constructor
      · refine le_min ?_ (by norm_num)
        have hN : 0 ≤ min (Real.log ((st.emailCount : ℝ) + 1) / Real.log 1001) 1.0 :=
          le_min (div_nonneg
              (Real.log_nonneg (by
                have hc := Nat.cast_nonneg (α := ℝ) st.emailCount
                linarith))
              (Real.log_nonneg (by norm_num)))
            (by norm_num)
        have hR := (Real.exp_pos (-(match st.lastEmailAt with
          | some t => (now - t) / (1000 * 60 * 60 * 24)
          | none => 365) / 30)).le
        have hB : (0 : ℝ) ≤ if st.isInContacts then 1.5 else 1.0 := by
          split <;> norm_num
        exact mul_nonneg (mul_nonneg hN hR) hB
      · exact (min_le_right _ _).trans (by norm_num)
  · unfold computeThreadScore
    constructor
    · exact le_min (by positivity) (by norm_num)
    · exact (min_le_right _ _).trans (by norm_num)
  · unfold computeTopicMatchScore
    by_cases hg : learningGoals.isEmpty
    · rw [if_pos hg]
      norm_num
    · rw [if_neg hg]
      have hlen : 0 < (learningGoals.length : ℝ) := by
        have hne : learningGoals ≠ [] := by simpa [List.isEmpty_iff] using hg
        exact_mod_cast List.length_pos.mpr hne
      constructor
      · positivity
      · rw [div_le_one hlen]
        exact_mod_cast List.length_filter_le _ _
  · cases stats with
    | none => norm_num [computeNoisePenalty]
    | some st =>
      unfold computeNoisePenalty
      have h1 : (0 : ℝ) ≤ min ((st.emailCount : ℝ) / 100) 0.5 :=
        le_min (by positivity) (by norm_num)
      have h2 : min ((st.emailCount : ℝ) / 100) 0.5 ≤ 0.5 := min_le_right _ _
      constructor
      · linarith
      · linarith
  · exact (Real.exp_pos _).le
  · intro hle
    unfold computeFreshnessScore
    apply Real.exp_le_one_iff.mpr
    have hd : 0 ≤ (emailReceivedAt - videoPublishedAt) / (1000 * 60 * 60 * 24) :=
      div_nonneg (sub_nonneg.mpr hle) (by norm_num)
    rw [neg_div]
    apply neg_nonpos.mpr
    have h30 : (0 : ℝ) < freshnessHalfLifeDays := by norm_num [freshnessHalfLifeDays]
    positivity
  · intro f
    unfold finalScore
    constructor
    · exact le_max_left 0 _
    · exact max_le (by norm_num) (min_le_left _ _)

/-! ### Evaluation harness theorems -/

/-- C3 counterexample: two rankings where the final-score order disagrees
with the ranked-at order, and a link whose feedback contains `watched`
followed by `dismissed`.  The harness (which sorts by ranked-at first and
lets the last feedback row overwrite the relevance map) computes
precision-at-1 of 0 and precision-at-2 of one half, while the claim's
formula (final-score order first, relevant iff SOME feedback is watched or
watch-now) yields 1 for both. -/
theorem precisionAtK_counterexample :
    evaluatePrecisionAtK [⟨"l1", "v1", 1, 1, "c1"⟩, ⟨"l2", "v2", 0, 2, "c2"⟩]
      [⟨"l1", "watched", none⟩, ⟨"l2", "watched", none⟩, ⟨"l2", "dismissed", none⟩]
      1 = 0 ∧
    specPrecisionAtK [⟨"l1", "v1", 1, 1, "c1"⟩, ⟨"l2", "v2", 0, 2, "c2"⟩]
      [⟨"l1", "watched", none⟩, ⟨"l2", "watched", none⟩, ⟨"l2", "dismissed", none⟩]
      1 = 1 ∧
    evaluatePrecisionAtK [⟨"l1", "v1", 1, 1, "c1"⟩, ⟨"l2", "v2", 0, 2, "c2"⟩]
      [⟨"l1", "watched", none⟩, ⟨"l2", "watched", none⟩, ⟨"l2", "dismissed", none⟩]
      2 = 1 / 2 ∧
    specPrecisionAtK [⟨"l1", "v1", 1, 1, "c1"⟩, ⟨"l2", "v2", 0, 2, "c2"⟩]
      [⟨"l1", "watched", none⟩, ⟨"l2", "watched", none⟩, ⟨"l2", "dismissed", none⟩]
      2 = 1 := by
  refine ⟨?_, ?_, ?_, ?_⟩ <;>
    norm_num +decide [evaluatePrecisionAtK, computePrecisionAtK, specPrecisionAtK,
      sqlOrderRankings, relevanceLookup, List.insertionSort, List.orderedInsert,
      List.countP, List.countP.go]

/-- C3 amended: the harness computes precision-at-k as the number of
relevant rankings among the top k ordered by ranked-at descending then
final-score descending, divided by the minimum of k and the number of
rankings, where a link is relevant exactly when the LAST feedback row
returned for it in the range has action `watched` or label `watch_now`
(each feedback row overwrites the relevance-map entry for its link). -/
theorem evaluatePrecisionAtK_formula (rows : List RankingRow)
    (fbs : List FeedbackRow) (k : Nat) :
    evaluatePrecisionAtK rows fbs k =
      (((sqlOrderRankings rows).take k).countP
          (fun r => relevanceLookup fbs r.linkId = some true) : ℚ) /
        ((min k rows.length : Nat) : ℚ) := by
  unfold evaluatePrecisionAtK computePrecisionAtK
  by_cases h : ((sqlOrderRankings rows).take k).isEmpty
  · rw [if_pos h]
    have he : (sqlOrderRankings rows).take k = [] := List.isEmpty_iff.mp h
    rw [he]
    simp
  · rw [if_neg h]
    have hlen : ((sqlOrderRankings rows).take k).length = min k rows.length := by
      rw [List.length_take]
      have hp : (sqlOrderRankings rows).length = rows.length :=
        (List.perm_insertionSort _ rows).length_eq
      rw [hp]
  -- placeholder
    rw [hlen]

/-- Witness for C2 at concrete inputs. -/
theorem featureScores_bounds_witness :
    computeFreshnessScore 0 0 ≤ 1 ∧
    0 ≤ computeSenderScore none 0 :=
  ⟨(featureScores_bounds none 0 0 0 0 ("") none []).2.2.2.2.2.1 (by norm_num),
   (featureScores_bounds none 0 0 0 0 ("") none []).1.1⟩

/-! ### Enrichment client theorems -/

theorem chunkListAux_nil {α : Type} (n fuel : Nat) :
    chunkListAux (α := α) n fuel [] = [] := by
  cases fuel <;> rfl

theorem chunkList_single {α : Type} {n : Nat} {l : List α} (hne : l ≠ [])
    (hlen : l.length ≤ n) : chunkList n l = [l] := by
  unfold chunkList
  cases l with
  | nil => exact absurd rfl hne
  | cons a as =>
    show chunkListAux n (as.length + 1) (a :: as) = [a :: as]
    simp only [chunkListAux]
    rw [List.take_of_length_le hlen, List.drop_eq_nil_of_le hlen, chunkListAux_nil]

theorem getVideoMetadataBody_allCached {ε : Type} (cfg : ClientConfig) (now : Int)
    (fetch : List String → Except ε (List (String × VideoMeta)))
    (ids : List String) (st1 : ClientState)
    (hc : ∀ id ∈ ids, (cacheLookup st1.cache id).isSome) :
    getVideoMetadataBody cfg now fetch ids st1 =
      (Except.ok (ids.filterMap (fun id => (cacheLookup st1.cache id).map ((id, ·)))),
       st1, 0) := by
  unfold getVideoMetadataBody
  have hnil : ids.filter (fun id => (cacheLookup st1.cache id).isNone) = [] := by
    rw [List.filter_eq_nil_iff]
    intro a ha
    simp [Option.isNone_iff_eq_none, Option.isSome_iff_exists] at hc ⊢
    obtain ⟨m, hm⟩ := hc a ha
    simp [hm]
  rw [hnil]
  rfl

theorem processBatches_single_ok {ε : Type} (cfg : ClientConfig) (now : Int)
    (fetch : List String → Except ε (List (String × VideoMeta)))
    (batch : List String) (st1 : ClientState)
    (acc items : List (String × VideoMeta))
    (hf : fetch batch = Except.ok items) :
    processBatches cfg now fetch [batch] st1 acc 0 =
      (Except.ok (acc ++ items),
       ⟨⟨BreakerPhase.closed, 0, none⟩,
        items.foldl (fun c kv => cacheStore c kv.1 kv.2) st1.cache⟩, 1) := by
  simp only [processBatches]
  rw [hf]

theorem processBatches_single_err {ε : Type} (cfg : ClientConfig) (now : Int)
    (fetch : List String → Except ε (List (String × VideoMeta)))
    (batch : List String) (st1 : ClientState)
    (acc : List (String × VideoMeta)) (e : ε)
    (hf : fetch batch = Except.error e) :
    processBatches cfg now fetch [batch] st1 acc 0 =
      (Except.error (ClientError.upstream e),
       { st1 with breaker := handleCircuitBreakerFailure cfg now st1.breaker }, 1) := by
  simp only [processBatches]
  rw [hf]

/-- C4 counterexample: with the breaker open three failures deep and the
reset timeout not yet elapsed, a call whose single requested id is a cache
hit fails fast with CircuitOpen, zero upstream calls and no results — the
claim instead requires the cached metadata to be returned regardless of the
breaker state, because it asserts the cache probe precedes the circuit
check. -/
theorem getVideoMetadata_circuitBeforeCache :
    (∀ id ∈ ["a"],
      (cacheLookup ([(("a" : String), ⟨"a", "T"⟩)]) id).isSome) ∧
    getVideoMetadata (ε := Unit) defaultClientConfig 1000 (fun _ => Except.error ())
      ["a"] ⟨⟨BreakerPhase.opened, 3, some 0⟩, [(("a" : String), ⟨"a", "T"⟩)]⟩ =
      (Except.error ClientError.circuitOpen,
       ⟨⟨BreakerPhase.opened, 3, some 0⟩, [(("a" : String), ⟨"a", "T"⟩)]⟩, 0) := by
  constructor
  · decide
  · rfl

/-- C4 amended: the circuit check precedes the cache probe.  When the
breaker is open and the reset timeout has not elapsed, the call fails fast
with CircuitOpen, zero upstream calls and an unchanged state, even if every
id is cached.  In every admitted call (breaker not open, or open with the
timeout elapsed, which turns it half-open) whose ids are all cache hits,
the call returns the cached metadata with zero upstream calls. -/
theorem getVideoMetadata_cacheHits {ε : Type} (cfg : ClientConfig) (now : Int)
    (fetch : List String → Except ε (List (String × VideoMeta)))
    (ids : List String) (st : ClientState) (hne : ids ≠ [])
    (hc : ∀ id ∈ ids, (cacheLookup st.cache id).isSome) :
    (st.breaker.phase = BreakerPhase.opened →
      now - st.breaker.lastFailure.getD 0 < cfg.resetTimeout →
      getVideoMetadata cfg now fetch ids st =
        (Except.error ClientError.circuitOpen, st, 0)) ∧
    (st.breaker.phase ≠ BreakerPhase.opened →
      getVideoMetadata cfg now fetch ids st =
        (Except.ok (ids.filterMap (fun id => (cacheLookup st.cache id).map ((id, ·)))),
         st, 0)) ∧
    (st.breaker.phase = BreakerPhase.opened →
      cfg.resetTimeout ≤ now - st.breaker.lastFailure.getD 0 →
      getVideoMetadata cfg now fetch ids st =
        (Except.ok (ids.filterMap (fun id => (cacheLookup st.cache id).map ((id, ·)))),
         { st with breaker := { st.breaker with phase := BreakerPhase.halfOpen } }, 0)) := by
  have hne2 : ¬ids.isEmpty = true := by simpa [List.isEmpty_iff] using hne
  refine ⟨?_, ?_, ?_⟩
  · intro hopen htime
    unfold getVideoMetadata
    rw [if_neg hne2, if_pos hopen, if_pos htime]
  · intro hopen
    unfold getVideoMetadata
    rw [if_neg hne2, if_neg hopen, getVideoMetadataBody_allCached cfg now fetch ids st hc]
  · intro hopen htime
    unfold getVideoMetadata
    rw [if_neg hne2, if_pos hopen, if_neg (not_lt.mpr htime)]
    exact getVideoMetadataBody_allCached cfg now fetch ids _ hc

theorem getVideoMetadataBody_fetch {ε : Type} (cfg : ClientConfig) (now : Int)
    (fetch : List String → Except ε (List (String × VideoMeta)))
    (ids : List String) (st1 : ClientState)
    (hne : ids.filter (fun id => (cacheLookup st1.cache id).isNone) ≠ [])
    (hlen : (ids.filter (fun id => (cacheLookup st1.cache id).isNone)).length ≤
      cfg.batchSize) :
    (∀ items, fetch (ids.filter (fun id => (cacheLookup st1.cache id).isNone)) =
        Except.ok items →
      getVideoMetadataBody cfg now fetch ids st1 =
        (Except.ok ((ids.filterMap
            (fun id => (cacheLookup st1.cache id).map ((id, ·)))) ++ items),
         ⟨⟨BreakerPhase.closed, 0, none⟩,
          items.foldl (fun c kv => cacheStore c kv.1 kv.2) st1.cache⟩, 1)) ∧
    (∀ e, fetch (ids.filter (fun id => (cacheLookup st1.cache id).isNone)) =
        Except.error e →
      getVideoMetadataBody cfg now fetch ids st1 =
        (Except.error (ClientError.upstream e),
         { st1 with breaker := handleCircuitBreakerFailure cfg now st1.breaker }, 1)) := by
  have hne2 : ¬(ids.filter (fun id => (cacheLookup st1.cache id).isNone)).isEmpty = true := by
    simpa [List.isEmpty_iff] using hne
  constructor
  · intro items hf
    unfold getVideoMetadataBody
    rw [if_neg hne2, chunkList_single hne hlen]
    exact processBatches_single_ok cfg now fetch _ st1 _ items hf
  · intro e hf
    unfold getVideoMetadataBody
    rw [if_neg hne2, chunkList_single hne hlen]
    exact processBatches_single_err cfg now fetch _ st1 _ e hf

/-- C5: the circuit breaker follows the specified state machine.  With a
single uncached batch: (a) while open and inside the reset timeout every
call fails fast; (b) in a closed or half-open state a failing batch
increments the consecutive-failure count, stamps the failure time, and the
state is open as soon as the count reaches the threshold (default 3); (c)
once the reset timeout has elapsed an open breaker admits the call as a
half-open probe, and a successful probe batch resets the breaker to closed
with zero failures; (d) a failing probe returns the breaker to open (its
count being at or past the threshold) with the failure timer reset to the
probe time. -/
theorem circuitBreaker_stateMachine {ε : Type} (cfg : ClientConfig) (now : Int)
    (fetch : List String → Except ε (List (String × VideoMeta)))
    (ids : List String) (st : ClientState) (hne : ids ≠ [])
    (hmiss : ids.filter (fun id => (cacheLookup st.cache id).isNone) ≠ [])
    (hlen : (ids.filter (fun id => (cacheLookup st.cache id).isNone)).length ≤
      cfg.batchSize) :
    (st.breaker.phase = BreakerPhase.opened →
      now - st.breaker.lastFailure.getD 0 < cfg.resetTimeout →
      getVideoMetadata cfg now fetch ids st =
        (Except.error ClientError.circuitOpen, st, 0)) ∧
    (st.breaker.phase ≠ BreakerPhase.opened →
      ∀ e, fetch (ids.filter (fun id => (cacheLookup st.cache id).isNone)) =
        Except.error e →
      getVideoMetadata cfg now fetch ids st =
        (Except.error (ClientError.upstream e),
         ⟨⟨if st.breaker.failures + 1 ≥ cfg.failureThreshold then BreakerPhase.opened
           else st.breaker.phase, st.breaker.failures + 1, some now⟩, st.cache⟩, 1)) ∧
    (st.breaker.phase = BreakerPhase.opened →
      cfg.resetTimeout ≤ now - st.breaker.lastFailure.getD 0 →
      ∀ items, fetch (ids.filter (fun id => (cacheLookup st.cache id).isNone)) =
        Except.ok items →
      getVideoMetadata cfg now fetch ids st =
        (Except.ok ((ids.filterMap
            (fun id => (cacheLookup st.cache id).map ((id, ·)))) ++ items),
         ⟨⟨BreakerPhase.closed, 0, none⟩,
          items.foldl (fun c kv => cacheStore c kv.1 kv.2) st.cache⟩, 1)) ∧
    (st.breaker.phase = BreakerPhase.opened →
      cfg.resetTimeout ≤ now - st.breaker.lastFailure.getD 0 →
      st.breaker.failures + 1 ≥ cfg.failureThreshold →
      ∀ e, fetch (ids.filter (fun id => (cacheLookup st.cache id).isNone)) =
        Except.error e →
      getVideoMetadata cfg now fetch ids st =
        (Except.error (ClientError.upstream e),
         ⟨⟨BreakerPhase.opened, st.breaker.failures + 1, some now⟩, st.cache⟩, 1)) := by
  have hne2 : ¬ids.isEmpty = true := by simpa [List.isEmpty_iff] using hne
  refine ⟨?_, ?_, ?_, ?_⟩
  · intro hopen htime
    unfold getVideoMetadata
    rw [if_neg hne2, if_pos hopen, if_pos htime]
  · intro hopen e hf
    unfold getVideoMetadata
    rw [if_neg hne2, if_neg hopen,
      (getVideoMetadataBody_fetch cfg now fetch ids st hmiss hlen).2 e hf]
    rfl
  · intro hopen htime items hf
    unfold getVideoMetadata
    rw [if_neg hne2, if_pos hopen, if_neg (not_lt.mpr htime)]
    exact (getVideoMetadataBody_fetch cfg now fetch ids
      { st with breaker := { st.breaker with phase := BreakerPhase.halfOpen } }
      hmiss hlen).1 items hf
  · intro hopen htime hth e hf
    unfold getVideoMetadata
    rw [if_neg hne2, if_pos hopen, if_neg (not_lt.mpr htime)]
    have heq := (getVideoMetadataBody_fetch cfg now fetch ids
      { st with breaker := { st.breaker with phase := BreakerPhase.halfOpen } }
      hmiss hlen).2 e hf
    rw [heq]
    simp only [handleCircuitBreakerFailure]
    rw [if_pos hth]

/-- Witness for C5: a failing probe after the timeout reopens the breaker. -/
theorem circuitBreaker_stateMachine_witness :
    getVideoMetadata (ε := Unit) defaultClientConfig 70000 (fun _ => Except.error ())
      ["a"] ⟨⟨BreakerPhase.opened, 3, some 0⟩, []⟩ =
      (Except.error (ClientError.upstream ()),
       ⟨⟨BreakerPhase.opened, 4, some 70000⟩, []⟩, 1) :=
  (circuitBreaker_stateMachine defaultClientConfig 70000 (fun _ => Except.error ())
    ["a"] ⟨⟨BreakerPhase.opened, 3, some 0⟩, []⟩
    (by decide) (by decide) (by decide)).2.2.2 (by decide) (by decide) (by decide)
    () rfl

/-- Witness for C4 at a concrete cached id with a closed breaker. -/
theorem getVideoMetadata_cacheHits_witness :
    getVideoMetadata (ε := Unit) defaultClientConfig 0 (fun _ => Except.error ())
      ["a"] ⟨⟨BreakerPhase.closed, 0, none⟩, [(("a" : String), ⟨"a", "T"⟩)]⟩ =
      (Except.ok [(("a" : String), ⟨"a", "T"⟩)],
       ⟨⟨BreakerPhase.closed, 0, none⟩, [(("a" : String), ⟨"a", "T"⟩)]⟩, 0) :=
  (getVideoMetadata_cacheHits defaultClientConfig 0 (fun _ => Except.error ())
    ["a"] ⟨⟨BreakerPhase.closed, 0, none⟩, [(("a" : String), ⟨"a", "T"⟩)]⟩
    (by decide) (by decide)).2.1 (by decide)

theorem fetchRetryLoop_attempts (o : Nat → FetchOutcome) :
    ∀ (remaining attempt : Nat) (lastErr : Option UpstreamErr),
      (fetchRetryLoop o remaining attempt lastErr).2.2 ≤ attempt + remaining := by
  intro remaining
  induction remaining with
  | zero =>
    intro attempt lastErr
    cases lastErr <;> simp [fetchRetryLoop]
  | succ r ih =>
    intro attempt lastErr
    rcases ho : o attempt with items | e
    · simp [fetchRetryLoop, ho]
    · simp only [fetchRetryLoop, ho]
      split_ifs with h1 h2
      · show (fetchRetryLoop o r (attempt + 1) (some e)).2.2 ≤ attempt + (r + 1)
        exact le_trans (ih (attempt + 1) (some e)) (by omega)
      · simp
      · show (fetchRetryLoop o r (attempt + 1) (some e)).2.2 ≤ attempt + (r + 1)
        exact le_trans (ih (attempt + 1) (some e)) (by omega)

/-- C9 counterexample: an HTTP 403 failure carrying no quota-exhaustion
marker surfaces QuotaExceeded immediately after a single attempt with no
backoff sleep, although by the claim it is an "other non-429 failure" that
should sleep `2^attempt * 1000` milliseconds and be retried. -/
theorem fetchRetry_bare403 :
    fetchVideoMetadataBatch (fun _ => FetchOutcome.fail ⟨none, some 403, none, false⟩) =
      (Except.error FetchError.quotaExceeded, [], 1) ∧
    errIs429 ⟨none, some 403, none, false⟩ = false ∧
    (⟨none, some 403, none, false⟩ : UpstreamErr).msgHasQuota = false :=
  ⟨rfl, rfl, rfl⟩

/-- C9 amended: each batch fetch is attempted at most 3 times; a non-429
failure whose message mentions the quota OR whose HTTP status is 403
surfaces QuotaExceeded immediately with no further retries and no sleep;
any other non-429 failure sleeps `2^attempt * 1000` milliseconds (including
after the final attempt); after the 3 attempts are exhausted the last error
is surfaced to the caller. -/
theorem fetchRetry_behavior (o : Nat → FetchOutcome) :
    (fetchVideoMetadataBatch o).2.2 ≤ 3 ∧
    (∀ items, o 0 = FetchOutcome.ok items →
      fetchVideoMetadataBatch o = (Except.ok items, [], 1)) ∧
    (∀ e, o 0 = FetchOutcome.fail e → errIs429 e = false → errIsQuota e = true →
      fetchVideoMetadataBatch o = (Except.error FetchError.quotaExceeded, [], 1)) ∧
    (∀ e0 e1, o 0 = FetchOutcome.fail e0 → errIs429 e0 = false →
      errIsQuota e0 = false →
      o 1 = FetchOutcome.fail e1 → errIs429 e1 = false → errIsQuota e1 = true →
      fetchVideoMetadataBatch o =
        (Except.error FetchError.quotaExceeded, [1000], 2)) ∧
    (∀ e0 e1 e2, o 0 = FetchOutcome.fail e0 → o 1 = FetchOutcome.fail e1 →
      o 2 = FetchOutcome.fail e2 →
      errIs429 e0 = false → errIsQuota e0 = false →
      errIs429 e1 = false → errIsQuota e1 = false →
      errIs429 e2 = false → errIsQuota e2 = false →
      fetchVideoMetadataBatch o =
        (Except.error (FetchError.lastError e2), [1000, 2000, 4000], 3)) := by
  refine ⟨fetchRetryLoop_attempts o 3 0 none, ?_, ?_, ?_, ?_⟩
  · intro items h0
    simp [fetchVideoMetadataBatch, fetchRetryLoop, h0]
  · intro e h0 h429 hq
    simp [fetchVideoMetadataBatch, fetchRetryLoop, h0, h429, hq]
  · intro e0 e1 h0 h429a hqa h1 h429b hqb
    simp [fetchVideoMetadataBatch, fetchRetryLoop, h0, h429a, hqa, h1, h429b, hqb]
  · intro e0 e1 e2 h0 h1 h2 h429a hqa h429b hqb h429c hqc
    simp [fetchVideoMetadataBatch, fetchRetryLoop, h0, h1, h2,
      h429a, hqa, h429b, hqb, h429c, hqc]

/-- Witness for C9 at a first-attempt success. -/
theorem fetchRetry_behavior_witness :
    fetchVideoMetadataBatch (fun _ => FetchOutcome.ok []) = (Except.ok [], [], 1) :=
  (fetchRetry_behavior (fun _ => FetchOutcome.ok [])).2.1 [] rfl

end YTIntel
